import Mathlib

/-!
# Verification of the checkpointed generation pipeline

Shallow embedding of the image/video batch-generation services
(`services/minimax_service_backup.py` and `services/minimax_service.py`).
Text is modelled as `List Char` (Python strings are sequences of code
points); timestamps are modelled as natural numbers.
-/

namespace ShortsTube

/-- Python `str.lower()` on the ASCII text this service manipulates. -/
def lowerText (s : List Char) : List Char := s.map Char.toLower

/-- Python `needle in haystack` on strings (contiguous-substring test). -/
def strIn (needle haystack : List Char) : Bool := decide (needle <:+: haystack)

/-! ## `_enhance_prompt_for_character_consistency` (minimax_service.py 404-427) -/

/-- The `consistency_keywords` list from the source. -/
def consistency_keywords : List (List Char) :=
  ["same character".toList, "consistent".toList, "identical".toList,
   "maintain appearance".toList, "same person".toList,
   "character consistency".toList, "preserve identity".toList]

/-- `", maintaining consistent character appearance, same facial features, identical clothing"`
prefixed by the `", "` used in the f-string. -/
def consistency_enhancement : List Char :=
  ", maintaining consistent character appearance, same facial features, identical clothing".toList

/-- `has_consistency_keyword = any(keyword in original_prompt.lower() ...)`. -/
def hasConsistencyKeyword (p : List Char) : Bool :=
  consistency_keywords.any fun keyword => strIn keyword (lowerText p)

/-- Second statement of `_enhance_prompt_for_character_consistency`: prepend
`"smooth and gentle "` when neither `smooth` nor `gentle` occurs. -/
def enhanceStep2 (enhanced_prompt : List Char) : List Char :=
  if strIn "smooth".toList (lowerText enhanced_prompt) = false
      ∧ strIn "gentle".toList (lowerText enhanced_prompt) = false then
    "smooth and gentle ".toList ++ enhanced_prompt
  else
    enhanced_prompt

/-- Embedding of `_enhance_prompt_for_character_consistency`. -/
def enhancePromptForCharacterConsistency (original_prompt : List Char) : List Char :=
  enhanceStep2
    (if hasConsistencyKeyword original_prompt = false then
      original_prompt ++ consistency_enhancement
    else
      original_prompt)

/-! ## Prompt truncation (`_generate_single_image` 353-374, `_create_single_video` 954-963) -/

/-- `realistic_keywords` string literal from `_generate_single_image`. -/
def realistic_keywords : List Char :=
  (", ultra-realistic photograph, DSLR camera quality, sharp focus, natural textures, professional studio lighting, photojournalism style, documentary photography, high resolution, detailed fur texture, Canon EOS R5, 85mm lens, natural window lighting, NOT cartoon, NOT anime, NOT illustration, NOT drawing, NOT artistic rendering").toList

/-- `anti_split_keywords` string literal from `_generate_single_image`. -/
def anti_split_keywords : List Char :=
  (", single scene, single image, unified composition, continuous scene, single moment in time, ONE scene only, NOT split screen, NOT multiple panels, NOT grid, NOT collage, NOT triptych, NOT diptych, NOT multiple views, NOT before and after, NOT step by step visual, NOT comparison, NOT showcase format, NOT presentation layout, NOT display montage, NO panels, NO divisions, NO separations").toList

/-- `style_enhanced_prompt = f"{prompt[:1000]}{realistic_keywords}{anti_split_keywords}"`. -/
def style_enhanced_prompt (prompt : List Char) : List Char :=
  prompt.take 1000 ++ realistic_keywords ++ anti_split_keywords

/-- The `prompt` field of the image-generation payload:
`style_enhanced_prompt[:1500]`. -/
def imagePayloadPrompt (prompt : List Char) : List Char :=
  (style_enhanced_prompt prompt).take 1500

/-- Default video prompt used when no scene prompt is supplied
(`_create_single_video`). -/
def default_video_prompt : List Char :=
  "Create smooth, natural camera movement and bring the scene to life with subtle animations".toList

/-- The `prompt` field of the video-generation payload: `video_prompt[:200]`
where `video_prompt` is the scene prompt or the default. -/
def videoPayloadPrompt (scene_prompt : Option (List Char)) : List Char :=
  (match scene_prompt with
   | some p => p
   | none => default_video_prompt).take 200

/-! ### Text helper lemmas -/

theorem lowerText_append (a b : List Char) :
    lowerText (a ++ b) = lowerText a ++ lowerText b := by
  simp [lowerText]

theorem strIn_append_right {k a : List Char} (b : List Char) (h : strIn k a = true) :
    strIn k (a ++ b) = true := by
  obtain ⟨s, t, rfl⟩ := of_decide_eq_true h
  exact decide_eq_true ⟨s, t ++ b, by simp⟩

theorem strIn_append_left {k b : List Char} (a : List Char) (h : strIn k b = true) :
    strIn k (a ++ b) = true := by
  obtain ⟨s, t, rfl⟩ := of_decide_eq_true h
  exact decide_eq_true ⟨a ++ s, t, by simp⟩

/-! ### C10: idempotence of the character-consistency prompt enhancement -/

theorem consistent_strIn_enhancement :
    strIn "consistent".toList (lowerText consistency_enhancement) = true := by decide

theorem smooth_strIn_prefix :
    strIn "smooth".toList (lowerText ("smooth and gentle ".toList)) = true := by decide

/-- `enhanceStep2` either keeps its argument or prepends the fixed prefix. -/
theorem enhanceStep2_cases (e : List Char) :
    enhanceStep2 e = e ∨ enhanceStep2 e = "smooth and gentle ".toList ++ e := by
  unfold enhanceStep2
  split
  · exact Or.inr rfl
  · exact Or.inl rfl

/-- A substring (after lowering) survives `enhanceStep2`. -/
theorem strIn_lower_enhanceStep2 {k e : List Char} (h : strIn k (lowerText e) = true) :
    strIn k (lowerText (enhanceStep2 e)) = true := by
  rcases enhanceStep2_cases e with he | he
  · rw [he]; exact h
  · rw [he, lowerText_append]; exact strIn_append_left _ h

/-- The output of `enhanceStep2` always contains `smooth` or `gentle`. -/
theorem enhanceStep2_smooth_gentle (e : List Char) :
    strIn "smooth".toList (lowerText (enhanceStep2 e)) = true
    ∨ strIn "gentle".toList (lowerText (enhanceStep2 e)) = true := by
  unfold enhanceStep2
  split
  · left
    rw [lowerText_append]
    exact strIn_append_right _ smooth_strIn_prefix
  · rename_i hcond
    rcases Bool.eq_false_or_eq_true (strIn "smooth".toList (lowerText e)) with hs | hs
    · exact Or.inl hs
    · rcases Bool.eq_false_or_eq_true (strIn "gentle".toList (lowerText e)) with hg | hg
      · exact Or.inr hg
      · exact absurd ⟨hs, hg⟩ hcond

/-- The first application always leaves a consistency keyword in the output. -/
theorem hasConsistencyKeyword_enhance (p : List Char) :
    hasConsistencyKeyword (enhancePromptForCharacterConsistency p) = true := by
  unfold enhancePromptForCharacterConsistency
  cases hb : hasConsistencyKeyword p with
  | false =>
    rw [if_pos rfl]
    refine List.any_eq_true.mpr ⟨"consistent".toList, by simp [consistency_keywords], ?_⟩
    refine strIn_lower_enhanceStep2 ?_
    rw [lowerText_append]
    exact strIn_append_left _ consistent_strIn_enhancement
  | true =>
    obtain ⟨k, hk_mem, hk⟩ := List.any_eq_true.mp hb
    rw [if_neg (by simp)]
    exact List.any_eq_true.mpr ⟨k, hk_mem, strIn_lower_enhanceStep2 hk⟩

/-- The first application always leaves the word `smooth` or `gentle` in the output. -/
theorem smoothGentle_enhance (p : List Char) :
    ¬ (strIn "smooth".toList (lowerText (enhancePromptForCharacterConsistency p)) = false
       ∧ strIn "gentle".toList (lowerText (enhancePromptForCharacterConsistency p)) = false) := by
  intro ⟨hs, hg⟩
  unfold enhancePromptForCharacterConsistency at hs hg
  rcases enhanceStep2_smooth_gentle
      (if hasConsistencyKeyword p = false then p ++ consistency_enhancement else p) with h | h
  · rw [hs] at h; exact Bool.false_ne_true h
  · rw [hg] at h; exact Bool.false_ne_true h

/-- If the input already carries a consistency keyword and `smooth`/`gentle`,
the enhancement is the identity. -/
theorem enhance_eq_self (q : List Char) (h1 : hasConsistencyKeyword q = true)
    (h2 : ¬ (strIn "smooth".toList (lowerText q) = false
             ∧ strIn "gentle".toList (lowerText q) = false)) :
    enhancePromptForCharacterConsistency q = q := by
  unfold enhancePromptForCharacterConsistency
  rw [if_neg (by simp [h1])]
  unfold enhanceStep2
  rw [if_neg h2]

/-- C10: `_enhance_prompt_for_character_consistency` is idempotent — a first
application always leaves a consistency keyword (`consistent`) and the word
`smooth` or `gentle` in its output, so a second application changes nothing. -/
theorem enhancePrompt_idempotent (p : List Char) :
    enhancePromptForCharacterConsistency (enhancePromptForCharacterConsistency p)
      = enhancePromptForCharacterConsistency p :=
  enhance_eq_self _ (hasConsistencyKeyword_enhance p) (smoothGentle_enhance p)

/-! ### C7: prompt truncation -/

/-- C7: the image payload prompt is at most 1500 characters, the video payload
prompt is at most 200 characters, and each truncation is idempotent (truncating
twice yields the same output as truncating once). Both payload constructions
are total functions: no input length produces an error. -/
theorem prompt_truncation_bounds (p : List Char) (sp : Option (List Char)) :
    (imagePayloadPrompt p).length ≤ 1500
    ∧ (videoPayloadPrompt sp).length ≤ 200
    ∧ (imagePayloadPrompt p).take 1500 = imagePayloadPrompt p
    ∧ (videoPayloadPrompt sp).take 200 = videoPayloadPrompt sp := by
  refine ⟨?_, ?_, ?_, ?_⟩
  · simp [imagePayloadPrompt]
  · simp [videoPayloadPrompt]
  · simp [imagePayloadPrompt, List.take_take]
  · simp [videoPayloadPrompt, List.take_take]

/-!
## The checkpointed batch scheduler
(`generate_images` 186-351 and `create_videos_with_prompts` 753-929 of
`minimax_service_backup.py`)

The run is modelled with a constant clock `now` (the claims under study do
not depend on elapsed time), and the network behaviour of the per-item
helpers (`_generate_single_image`, `_create_single_video`) is an oracle
parameter. `asyncio.gather` without `return_exceptions` returns the task
results in submission order and, if a task raises, propagates that
exception out of the `await`; since the `await asyncio.gather(*tasks)`
statement sits *outside* the `try` block in both schedulers, a failing
batch leaves the commit loop and the `except` handler unexecuted.
-/

/-- The `failed_at` record `{index, error, timestamp}`. -/
structure FailedAt where
  index : Nat
  error : String
  timestamp : Nat
deriving DecidableEq, Repr

/-- One committed entry of `generated_images`: `_generate_single_image`
returns either a single path string or a list of candidate paths. -/
inductive ImgResult where
  | path (p : String)
  | paths (ps : List String)
deriving DecidableEq, Repr

/-- The checkpoint JSON dict, with one optional/defaulted field per key the
two schedulers read or write (`dict.get` defaults mirrored by the field
defaults). -/
structure Checkpoint where
  session_id : Option String := none
  total_prompts : Nat := 0
  prompts : Option (List String) := none
  completed_images : List Nat := []
  generated_images : List ImgResult := []
  start_time : Nat := 0
  phase : String := ""
  session_image_dir : String := ""
  session_video_dir : String := ""
  completed : Bool := false
  last_completed_index : Option Nat := none
  last_update : Option Nat := none
  completion_time : Option Nat := none
  total_time : Option Nat := none
  failed_at : Option FailedAt := none
  total_images : Nat := 0
  images : List String := []
  completed_videos : List Nat := []
  video_paths : List String := []
  video_start_time : Option Nat := none
  video_total_time : Option Nat := none
deriving DecidableEq, Repr

/-- Observable outcome of one scheduler run: the returned value or raised
error, every checkpoint written by `_save_checkpoint` in order, and the
indices of the items whose tasks were started (ghost trace). -/
instance {ε α : Type} [DecidableEq ε] [DecidableEq α] : DecidableEq (Except ε α) :=
  fun x y =>
    match x, y with
    | .ok a, .ok b => if h : a = b then .isTrue (by rw [h]) else .isFalse (by simp [h])
    | .error e, .error f => if h : e = f then .isTrue (by rw [h]) else .isFalse (by simp [h])
    | .ok _, .error _ => .isFalse (by simp)
    | .error _, .ok _ => .isFalse (by simp)

structure RunOutput (α : Type) where
  result : Except String (List α)
  saves : List Checkpoint
  calls : List Nat
deriving DecidableEq

/-- `asyncio.gather(*tasks)` without `return_exceptions`: results in task
submission order; the first (in submission order, in this deterministic
embedding) exception propagates. -/
def gatherExcept {α : Type} : List (Except String α) → Except String (List α)
  | [] => .ok []
  | .error e :: _ => .error e
  | .ok a :: rest =>
    match gatherExcept rest with
    | .error e => .error e
    | .ok as => .ok (a :: as)

/-- `asyncio.gather` with the tasks resolving in the completion order
`order` (a permutation of the task positions): each result is still placed
at its task's submission position; the exception propagated is the first
one in completion order. -/
def gatherSched {α : Type} (outs : List (Except String α)) (order : List Nat) :
    Except String (List α) :=
  match order.findSome? (fun j =>
    match outs.get? j with
    | some (.error e) => some e
    | _ => none) with
  | some e => .error e
  | none => gatherExcept outs

/-! ### Image phase (`generate_images`) -/

/-- Network outcome of `_generate_single_image`: a path (possibly `""`), a
list of candidate paths, or a raised exception. -/
inductive ImgGenResult where
  | path (p : String)
  | paths (ps : List String)
  | exn (e : String)
deriving DecidableEq, Repr

/-- The inner `generate_single_image` closure: raises (wrapped) when the
helper returns a falsy value or raises. -/
def imageItemTask (inner : Nat → String → ImgGenResult) (realIndex : Nat) (prompt : String) :
    Except String ImgResult :=
  match inner realIndex prompt with
  | .exn e => .error ("Error generating image " ++ toString (realIndex + 1) ++ ": " ++ e)
  | .path p =>
    if p = "" then
      .error ("Error generating image " ++ toString (realIndex + 1)
        ++ ": Failed to generate image " ++ toString (realIndex + 1))
    else .ok (.path p)
  | .paths ps =>
    if ps = [] then
      .error ("Error generating image " ++ toString (realIndex + 1)
        ++ ": Failed to generate image " ++ toString (realIndex + 1))
    else .ok (.paths ps)

/-- In-memory progress of the image scheduler: the checkpoint dict, the
`completed_images` / `generated_images` locals, and the saves so far. -/
structure CommitState where
  cp : Checkpoint
  completed : List Nat
  generated : List ImgResult
  saves : List Checkpoint
deriving DecidableEq

/-- The per-item commit loop of `generate_images` (lines 281-299): append
result and index, update the checkpoint dict, save after every item. -/
def commitImages (now : Nat) (st : CommitState) (realStart : Nat) :
    List ImgResult → CommitState
  | [] => st
  | r :: rs =>
    let generated1 := st.generated ++ [r]
    let completed1 := st.completed ++ [realStart]
    let cp1 := { st.cp with
      completed_images := completed1
      generated_images := generated1
      last_completed_index := some realStart
      last_update := some now }
    commitImages now
      { cp := cp1, completed := completed1, generated := generated1,
        saves := st.saves ++ [cp1] }
      (realStart + 1) rs

/-- One batch of `generate_images`: start every task, `gather`, and (only
when no task raised) run the commit loop. The `except` block recording
`failed_at` is not reachable because `gather` raises outside the `try`. -/
def imageBatchStep (task : Nat → String → Except String ImgResult) (now startIndex : Nat)
    (batch : List String) (st : CommitState) :
    Except String CommitState × List Nat :=
  let outs := batch.enum.map fun ip => task (startIndex + ip.1) ip.2
  let calls := batch.enum.map fun ip => startIndex + ip.1
  match gatherExcept outs with
  | .error e => (.error e, calls)
  | .ok batch_results => (.ok (commitImages now st startIndex batch_results), calls)

/-- The completion write after the loop (lines 338-342). -/
def finishImage (now : Nat) (st : CommitState) : RunOutput ImgResult :=
  let cpFinal := { st.cp with
    completed := true
    completion_time := some now
    total_time := some 0 }
  { result := .ok st.generated, saves := st.saves ++ [cpFinal], calls := [] }

/-- The batch loop of `generate_images` (lines 243-333): fixed batches of 4
over the remaining prompts, strictly sequential across batches (a batch of
fewer than 4 items is necessarily the last one). -/
def runImageBatches (task : Nat → String → Except String ImgResult) (now : Nat) :
    Nat → List String → CommitState → RunOutput ImgResult
  | _, [], st => finishImage now st
  | startIndex, p0 :: p1 :: p2 :: p3 :: rest, st =>
    match imageBatchStep task now startIndex [p0, p1, p2, p3] st with
    | (.error e, calls) => { result := .error e, saves := st.saves, calls := calls }
    | (.ok st1, calls) =>
      let out := runImageBatches task now (startIndex + 4) rest st1
      { out with calls := calls ++ out.calls }
  | startIndex, remaining, st =>
    match imageBatchStep task now startIndex remaining st with
    | (.error e, calls) => { result := .error e, saves := st.saves, calls := calls }
    | (.ok st1, calls) =>
      let out := finishImage now st1
      { out with calls := calls ++ out.calls }

/-- `generate_images(prompts, session_id)` with the stored checkpoint for
the session id passed explicitly (`_load_checkpoint` returns `{}` when
nothing is stored). -/
def generateImages (inner : Nat → String → ImgGenResult) (sessionId : String)
    (prompts : List String) (stored : Option Checkpoint) (now : Nat) : RunOutput ImgResult :=
  let checkpoint := stored.getD {}
  let completed_images := checkpoint.completed_images
  let generated_images := checkpoint.generated_images
  let start_index := completed_images.length
  let init :=
    if checkpoint.session_id = none then
      let fresh : Checkpoint :=
        { session_id := some sessionId
          total_prompts := prompts.length
          prompts := some prompts
          completed_images := []
          generated_images := []
          start_time := now
          phase := "image_generation"
          session_image_dir := "downloads/minimax_images/" ++ sessionId
          session_video_dir := "downloads/videos/" ++ sessionId }
      (fresh, [fresh])
    else (checkpoint, ([] : List Checkpoint))
  let remaining := prompts.drop start_index
  if remaining.isEmpty then
    { result := .ok generated_images, saves := init.2, calls := [] }
  else
    runImageBatches (imageItemTask inner) now start_index remaining
      { cp := init.1, completed := completed_images, generated := generated_images,
        saves := init.2 }

/-! ### Video phase (`create_videos_with_prompts`) -/

/-- `video_prompts[real_index] if video_prompts and real_index < len(video_prompts) else None`
(`None` and the empty list are both falsy). -/
def scenePromptFor (video_prompts : Option (List String)) (realIndex : Nat) : Option String :=
  match video_prompts with
  | some vps => if vps ≠ [] ∧ realIndex < vps.length then some (vps.getD realIndex "") else none
  | none => none

/-- The inner `create_single_video` closure: missing image raises before the
`try`; a falsy path from `_create_single_video` (which itself swallows its
own exceptions and returns `""`) raises a wrapped error; success returns
`(real_index, video_path)`. -/
def videoItemTask (pathExists : String → Bool) (innerV : Nat → String → Option String → String)
    (video_prompts : Option (List String)) (realIndex : Nat) (imagePath : String) :
    Except String (Nat × String) :=
  if imagePath = "" ∨ pathExists imagePath = false then
    .error ("No image available for video " ++ toString (realIndex + 1))
  else
    let scene_prompt := scenePromptFor video_prompts realIndex
    let video_path := innerV realIndex imagePath scene_prompt
    if video_path = "" then
      .error ("Error creating video " ++ toString (realIndex + 1) ++ ": Failed to create video "
        ++ toString (realIndex + 1) ++ " after 0s")
    else .ok (realIndex, video_path)

/-- In-memory progress of the video scheduler. -/
structure VCommitState where
  cp : Checkpoint
  completed : List Nat
  video_paths : List String
  saves : List Checkpoint
deriving DecidableEq

/-- The per-item commit loop of `create_videos_with_prompts` (871-881). -/
def commitVideos (now : Nat) (st : VCommitState) :
    List (Nat × String) → VCommitState
  | [] => st
  | (real_index, video_path) :: rs =>
    let video_paths1 := st.video_paths ++ [video_path]
    let completed1 := st.completed ++ [real_index]
    let cp1 := { st.cp with
      completed_videos := completed1
      video_paths := video_paths1
      last_completed_index := some real_index
      last_update := some now }
    commitVideos now
      { cp := cp1, completed := completed1, video_paths := video_paths1,
        saves := st.saves ++ [cp1] }
      rs

/-- One batch of `create_videos_with_prompts`; as in the image phase the
`failed_at` handler is unreachable (`gather` raises outside the `try`). -/
def videoBatchStep (task : Nat → String → Except String (Nat × String)) (now startIndex : Nat)
    (batch : List String) (st : VCommitState) :
    Except String VCommitState × List Nat :=
  let outs := batch.enum.map fun ip => task (startIndex + ip.1) ip.2
  let calls := batch.enum.map fun ip => startIndex + ip.1
  match gatherExcept outs with
  | .error e => (.error e, calls)
  | .ok batch_results => (.ok (commitVideos now st batch_results), calls)

/-- The completion write after the video loop (915-919). -/
def finishVideo (now : Nat) (st : VCommitState) : RunOutput String :=
  let cpFinal := { st.cp with
    completed := true
    completion_time := some now
    video_total_time := some 0 }
  { result := .ok st.video_paths, saves := st.saves ++ [cpFinal], calls := [] }

/-- The batch loop of `create_videos_with_prompts` (819-910): batches of 2
(a batch of a single item is necessarily the last one). -/
def runVideoBatches (task : Nat → String → Except String (Nat × String)) (now : Nat) :
    Nat → List String → VCommitState → RunOutput String
  | _, [], st => finishVideo now st
  | startIndex, p0 :: p1 :: rest, st =>
    match videoBatchStep task now startIndex [p0, p1] st with
    | (.error e, calls) => { result := .error e, saves := st.saves, calls := calls }
    | (.ok st1, calls) =>
      let out := runVideoBatches task now (startIndex + 2) rest st1
      { out with calls := calls ++ out.calls }
  | startIndex, remaining, st =>
    match videoBatchStep task now startIndex remaining st with
    | (.error e, calls) => { result := .error e, saves := st.saves, calls := calls }
    | (.ok st1, calls) =>
      let out := finishVideo now st1
      { out with calls := calls ++ out.calls }

/-- `create_videos_with_prompts(image_paths, video_prompts, session_id)`
with the stored checkpoint passed explicitly. Unlike the image phase, an
initial checkpoint write always happens (line 809); the phase-transition
branch updates `phase`/`images`/`prompts` but not `total_images`. -/
def createVideosWithPrompts (pathExists : String → Bool)
    (innerV : Nat → String → Option String → String) (sessionId : String)
    (imagePaths : List String) (videoPrompts : Option (List String))
    (stored : Option Checkpoint) (now : Nat) : RunOutput String :=
  let checkpoint := stored.getD {}
  let completed_videos := checkpoint.completed_videos
  let video_paths := checkpoint.video_paths
  let start_index := completed_videos.length
  let cp1 :=
    if checkpoint.session_id = none then
      { session_id := some sessionId
        total_images := imagePaths.length
        images := imagePaths
        prompts := videoPrompts
        completed_videos := []
        video_paths := []
        start_time := now
        phase := "video_generation"
        session_image_dir := "downloads/minimax_images/" ++ sessionId
        session_video_dir := "downloads/videos/" ++ sessionId : Checkpoint }
    else
      { checkpoint with
        phase := "video_generation"
        images := imagePaths
        prompts := videoPrompts
        video_start_time := some now }
  let remaining := imagePaths.drop start_index
  if remaining.isEmpty then
    { result := .ok video_paths, saves := [cp1], calls := [] }
  else
    runVideoBatches (videoItemTask pathExists innerV videoPrompts) now start_index remaining
      { cp := cp1, completed := completed_videos, video_paths := video_paths, saves := [cp1] }

/-! ### Helper lemmas about `gather` and batch task lists -/

theorem gatherExcept_map_ok {α : Type} (l : List α) :
    gatherExcept (l.map Except.ok) = .ok l := by
  induction l with
  | nil => rfl
  | cons a rest ih => simp [gatherExcept, ih]

theorem gatherExcept_error_of_mem {α : Type} (l : List (Except String α)) (e : String)
    (h : Except.error e ∈ l) : ∃ e2, gatherExcept l = .error e2 := by
  induction l with
  | nil => simp at h
  | cons x rest ih =>
    cases x with
    | error e1 => exact ⟨e1, rfl⟩
    | ok a =>
      rcases List.mem_cons.mp h with h1 | h1
      · exact absurd h1 (by simp)
      · obtain ⟨e2, he2⟩ := ih h1
        exact ⟨e2, by simp [gatherExcept, he2]⟩

/-- The task list of one batch when every task of the batch succeeds. -/
theorem batchOuts_eq_ok {β : Type} (task : Nat → String → Except String β) (f : Nat → β)
    (start : Nat) (batch : List String)
    (h : ∀ i, i < batch.length → task (start + i) (batch.getD i "") = .ok (f (start + i))) :
    batch.enum.map (fun ip => task (start + ip.1) ip.2)
      = ((List.range' start batch.length).map f).map Except.ok := by
  refine List.ext_getElem (by simp) fun i h1 h2 => ?_
  have hi : i < batch.length := by simpa using h1
  have hien : i < batch.enum.length := by simpa using hi
  have he : batch.enum[i] = (i, batch[i]) := List.getElem_enum _ _ _
  calc (batch.enum.map (fun ip => task (start + ip.1) ip.2))[i]
      = task (start + i) batch[i] := by rw [List.getElem_map, he]
    _ = .ok (f (start + i)) := by
        rw [← List.getD_eq_getElem batch "" hi]; exact h i hi
    _ = (((List.range' start batch.length).map f).map Except.ok)[i] := by
        simp [List.getElem_range']

/-- The indices started by one batch. -/
theorem batchCalls_eq (start : Nat) (batch : List String) :
    batch.enum.map (fun ip => start + ip.1) = List.range' start batch.length := by
  refine List.ext_getElem (by simp) fun i h1 h2 => ?_
  have hi : i < batch.length := by simpa using h1
  have hien : i < batch.enum.length := by simpa using hi
  have he : batch.enum[i] = (i, batch[i]) := List.getElem_enum _ _ _
  rw [List.getElem_map, he, List.getElem_range']
  simp

/-- If a task of the batch fails, the batch task list contains its error. -/
theorem batchOuts_error_mem {β : Type} (task : Nat → String → Except String β)
    (start : Nat) (batch : List String) (k : Nat) (e : String) (hk : k < batch.length)
    (h : task (start + k) (batch.getD k "") = .error e) :
    Except.error e ∈ batch.enum.map (fun ip => task (start + ip.1) ip.2) := by
  have hlen : k < (batch.enum.map (fun ip => task (start + ip.1) ip.2)).length := by simpa using hk
  have hken : k < batch.enum.length := by simpa using hk
  have he : batch.enum[k] = (k, batch[k]) := List.getElem_enum _ _ _
  have : (batch.enum.map (fun ip => task (start + ip.1) ip.2))[k] = Except.error e := by
    rw [List.getElem_map, he, ← List.getD_eq_getElem batch "" hk]
    exact h
  exact this ▸ List.getElem_mem hlen

/-! ### The per-item commit loops -/

theorem map_range_succ_cons {γ : Type} (g : Nat → γ) (n : Nat) :
    (List.range (n + 1)).map g = g 0 :: (List.range n).map (fun j => g (j + 1)) := by
  rw [List.range_succ_eq_map]
  simp [List.map_map, Function.comp]

/-- Exact effect of the image commit loop: indices appended in order,
results appended in order, one checkpoint snapshot saved per item. -/
theorem commitImages_spec (now : Nat) :
    ∀ (rs : List ImgResult) (st : CommitState) (realStart : Nat),
    (commitImages now st realStart rs).completed = st.completed ++ List.range' realStart rs.length
    ∧ (commitImages now st realStart rs).generated = st.generated ++ rs
    ∧ (commitImages now st realStart rs).saves
        = st.saves ++ (List.range rs.length).map (fun j =>
            { st.cp with
              completed_images := st.completed ++ List.range' realStart (j + 1)
              generated_images := st.generated ++ rs.take (j + 1)
              last_completed_index := some (realStart + j)
              last_update := some now })
  | [], st, realStart => by simp [commitImages]
  | r :: rs, st, realStart => by
    refine ⟨?_, ?_, ?_⟩
    · rw [commitImages, (commitImages_spec now rs _ (realStart + 1)).1]
      simp [List.range'_succ]
    · rw [commitImages, (commitImages_spec now rs _ (realStart + 1)).2.1]
      simp
    · rw [commitImages, (commitImages_spec now rs _ (realStart + 1)).2.2]
      simp only [List.length_cons]
      rw [map_range_succ_cons]
      simp only [List.append_assoc, List.cons_append, List.nil_append, List.singleton_append]
      refine congrArg (fun l => st.saves ++ l) ?_
      refine congrArg₂ List.cons ?_ ?_
      · simp
      · refine List.map_congr_left fun j hj => ?_
        simp [List.range'_succ, List.take_succ_cons]
        all_goals omega

/-- Exact effect of the video commit loop: the returned `(real_index, path)`
pairs are appended in order, one checkpoint snapshot saved per item. -/
theorem commitVideos_spec (now : Nat) :
    ∀ (rs : List (Nat × String)) (st : VCommitState),
    (commitVideos now st rs).completed = st.completed ++ rs.map Prod.fst
    ∧ (commitVideos now st rs).video_paths = st.video_paths ++ rs.map Prod.snd
    ∧ (commitVideos now st rs).saves
        = st.saves ++ (List.range rs.length).map (fun j =>
            { st.cp with
              completed_videos := st.completed ++ (rs.take (j + 1)).map Prod.fst
              video_paths := st.video_paths ++ (rs.take (j + 1)).map Prod.snd
              last_completed_index := some (rs.getD j (0, "")).1
              last_update := some now })
  | [], st => by simp [commitVideos]
  | (i0, v0) :: rs, st => by
    refine ⟨?_, ?_, ?_⟩
    · rw [commitVideos, (commitVideos_spec now rs _).1]
      simp
    · rw [commitVideos, (commitVideos_spec now rs _).2.1]
      simp
    · rw [commitVideos, (commitVideos_spec now rs _).2.2]
      simp only [List.length_cons]
      rw [map_range_succ_cons]
      simp only [List.append_assoc, List.cons_append, List.nil_append, List.singleton_append]
      refine congrArg (fun l => st.saves ++ l) ?_
      refine congrArg₂ List.cons ?_ ?_
      · simp
      · refine List.map_congr_left fun j hj => ?_
        simp [List.take_succ_cons]

/-! ### Batch-step lemmas -/

theorem imageBatchStep_ok (task : Nat → String → Except String ImgResult) (f : Nat → ImgResult)
    (now start : Nat) (batch : List String) (st : CommitState)
    (h : ∀ i, i < batch.length → task (start + i) (batch.getD i "") = .ok (f (start + i))) :
    imageBatchStep task now start batch st
      = (.ok (commitImages now st start ((List.range' start batch.length).map f)),
         List.range' start batch.length) := by
  simp only [imageBatchStep]
  rw [batchOuts_eq_ok task f start batch h, gatherExcept_map_ok, batchCalls_eq]

theorem imageBatchStep_error (task : Nat → String → Except String ImgResult)
    (now start : Nat) (batch : List String) (st : CommitState) (k : Nat) (e : String)
    (hk : k < batch.length) (hfail : task (start + k) (batch.getD k "") = .error e) :
    ∃ e2, imageBatchStep task now start batch st = (.error e2, List.range' start batch.length) := by
  obtain ⟨e2, hg⟩ := gatherExcept_error_of_mem _ _ (batchOuts_error_mem task start batch k e hk hfail)
  exact ⟨e2, by simp only [imageBatchStep, hg, batchCalls_eq]⟩

theorem videoBatchStep_ok (task : Nat → String → Except String (Nat × String)) (g : Nat → Nat × String)
    (now start : Nat) (batch : List String) (st : VCommitState)
    (h : ∀ i, i < batch.length → task (start + i) (batch.getD i "") = .ok (g (start + i))) :
    videoBatchStep task now start batch st
      = (.ok (commitVideos now st ((List.range' start batch.length).map g)),
         List.range' start batch.length) := by
  simp only [videoBatchStep]
  rw [batchOuts_eq_ok task g start batch h, gatherExcept_map_ok, batchCalls_eq]

theorem videoBatchStep_error (task : Nat → String → Except String (Nat × String))
    (now start : Nat) (batch : List String) (st : VCommitState) (k : Nat) (e : String)
    (hk : k < batch.length) (hfail : task (start + k) (batch.getD k "") = .error e) :
    ∃ e2, videoBatchStep task now start batch st = (.error e2, List.range' start batch.length) := by
  obtain ⟨e2, hg⟩ := gatherExcept_error_of_mem _ _ (batchOuts_error_mem task start batch k e hk hfail)
  exact ⟨e2, by simp only [videoBatchStep, hg, batchCalls_eq]⟩

/-! ### Master lemma: fully successful runs -/

/-- When every remaining task succeeds, the image batch loop returns the
accumulated results followed by the outputs of items
`startIndex .. startIndex + remaining.length - 1` in index order, and starts
exactly those items. -/
theorem runImageBatches_ok (task : Nat → String → Except String ImgResult) (f : Nat → ImgResult)
    (now : Nat) :
    ∀ (remaining : List String) (startIndex : Nat) (st : CommitState),
    (∀ i, i < remaining.length → task (startIndex + i) (remaining.getD i "") = .ok (f (startIndex + i))) →
    (runImageBatches task now startIndex remaining st).result
        = .ok (st.generated ++ (List.range' startIndex remaining.length).map f)
    ∧ (runImageBatches task now startIndex remaining st).calls
        = List.range' startIndex remaining.length
  | [], startIndex, st, _ => by
    simp [runImageBatches, finishImage]
  | [p0], startIndex, st, h => by
    have hb := imageBatchStep_ok task f now startIndex [p0] st (by simpa using h)
    simp only [runImageBatches, hb]
    simp [finishImage, (commitImages_spec now _ _ _).2.1]
  | [p0, p1], startIndex, st, h => by
    have hb := imageBatchStep_ok task f now startIndex [p0, p1] st (by simpa using h)
    simp only [runImageBatches, hb]
    simp [finishImage, (commitImages_spec now _ _ _).2.1]
  | [p0, p1, p2], startIndex, st, h => by
    have hb := imageBatchStep_ok task f now startIndex [p0, p1, p2] st (by simpa using h)
    simp only [runImageBatches, hb]
    simp [finishImage, (commitImages_spec now _ _ _).2.1]
  | p0 :: p1 :: p2 :: p3 :: rest, startIndex, st, h => by
    have h4 : ∀ i, i < ([p0, p1, p2, p3] : List String).length →
        task (startIndex + i) ([p0, p1, p2, p3].getD i "") = .ok (f (startIndex + i)) := by
      intro i hi
      have hi4 : i < 4 := by simpa using hi
      have hlen : i < (p0 :: p1 :: p2 :: p3 :: rest).length := by simp; omega
      have := h i hlen
      interval_cases i <;> simpa using this
    have hrest : ∀ i, i < rest.length →
        task (startIndex + 4 + i) (rest.getD i "") = .ok (f (startIndex + 4 + i)) := by
      intro i hi
      have hlen : i + 4 < (p0 :: p1 :: p2 :: p3 :: rest).length := by simp; omega
      have := h (i + 4) hlen
      have hgetD : (p0 :: p1 :: p2 :: p3 :: rest).getD (i + 4) "" = rest.getD i "" := by
        simp [List.getD_cons_succ, show i + 4 = i + 3 + 1 by omega,
          show i + 3 = i + 2 + 1 by omega, show i + 2 = i + 1 + 1 by omega]
      rw [hgetD] at this
      have harith : startIndex + (i + 4) = startIndex + 4 + i := by omega
      rw [harith] at this
      exact this
    obtain ⟨ih1, ih2⟩ := runImageBatches_ok task f now rest (startIndex + 4) _ hrest
    have hb := imageBatchStep_ok task f now startIndex [p0, p1, p2, p3] st h4
    have hr := List.range'_append startIndex 4 rest.length 1
    simp only [Nat.one_mul] at hr
    simp only [runImageBatches, hb]
    refine ⟨?_, ?_⟩
    · show (runImageBatches task now (startIndex + 4) rest _).result = _
      rw [ih1, (commitImages_spec now _ _ _).2.1]
      simp only [List.length_cons, List.length_nil]
      rw [show rest.length + 1 + 1 + 1 + 1 = rest.length + 4 by omega, ← hr,
        List.map_append, List.append_assoc]
    · show List.range' startIndex 4 ++ (runImageBatches task now (startIndex + 4) rest _).calls = _
      rw [ih2]
      simp only [List.length_cons, List.length_nil]
      rw [show rest.length + 1 + 1 + 1 + 1 = rest.length + 4 by omega, ← hr]

/-- When every remaining task succeeds, the video batch loop returns the
accumulated paths followed by the successful tasks' paths in index order,
and starts exactly the remaining items. -/
theorem runVideoBatches_ok (task : Nat → String → Except String (Nat × String))
    (g : Nat → Nat × String) (now : Nat) :
    ∀ (remaining : List String) (startIndex : Nat) (st : VCommitState),
    (∀ i, i < remaining.length → task (startIndex + i) (remaining.getD i "") = .ok (g (startIndex + i))) →
    (runVideoBatches task now startIndex remaining st).result
        = .ok (st.video_paths ++ ((List.range' startIndex remaining.length).map g).map Prod.snd)
    ∧ (runVideoBatches task now startIndex remaining st).calls
        = List.range' startIndex remaining.length
  | [], startIndex, st, _ => by
    simp [runVideoBatches, finishVideo]
  | [p0], startIndex, st, h => by
    have hb := videoBatchStep_ok task g now startIndex [p0] st (by simpa using h)
    simp only [runVideoBatches, hb]
    simp [finishVideo, (commitVideos_spec now _ _).2.1]
  | p0 :: p1 :: rest, startIndex, st, h => by
    have h2 : ∀ i, i < ([p0, p1] : List String).length →
        task (startIndex + i) ([p0, p1].getD i "") = .ok (g (startIndex + i)) := by
      intro i hi
      have hi2 : i < 2 := by simpa using hi
      have hlen : i < (p0 :: p1 :: rest).length := by simp; omega
      have := h i hlen
      interval_cases i <;> simpa using this
    have hrest : ∀ i, i < rest.length →
        task (startIndex + 2 + i) (rest.getD i "") = .ok (g (startIndex + 2 + i)) := by
      intro i hi
      have hlen : i + 2 < (p0 :: p1 :: rest).length := by simp; omega
      have := h (i + 2) hlen
      have hgetD : (p0 :: p1 :: rest).getD (i + 2) "" = rest.getD i "" := by
        simp [List.getD_cons_succ, show i + 2 = i + 1 + 1 by omega]
      rw [hgetD] at this
      have harith : startIndex + (i + 2) = startIndex + 2 + i := by omega
      rw [harith] at this
      exact this
    obtain ⟨ih1, ih2⟩ := runVideoBatches_ok task g now rest (startIndex + 2) _ hrest
    have hb := videoBatchStep_ok task g now startIndex [p0, p1] st h2
    have hr := List.range'_append startIndex 2 rest.length 1
    simp only [Nat.one_mul] at hr
    simp only [runVideoBatches, hb]
    refine ⟨?_, ?_⟩
    · show (runVideoBatches task now (startIndex + 2) rest _).result = _
      rw [ih1, (commitVideos_spec now _ _).2.1]
      simp only [List.length_cons, List.length_nil]
      rw [show rest.length + 1 + 1 = rest.length + 2 by omega, ← hr,
        List.map_append, List.map_append, List.append_assoc]
    · show List.range' startIndex 2 ++ (runVideoBatches task now (startIndex + 2) rest _).calls = _
      rw [ih2]
      simp only [List.length_cons, List.length_nil]
      rw [show rest.length + 1 + 1 = rest.length + 2 by omega, ← hr]

/-! ### Whole-run lemmas: fresh and resumed runs -/

/-- Unfolding `generate_images` on a fresh session with work to do. -/
theorem generateImages_fresh_eq (inner : Nat → String → ImgGenResult) (sid : String)
    (prompts : List String) (now : Nat) (hne : prompts ≠ []) :
    generateImages inner sid prompts none now
      = runImageBatches (imageItemTask inner) now 0 prompts
          { cp := { session_id := some sid, total_prompts := prompts.length,
                    prompts := some prompts, completed_images := [], generated_images := [],
                    start_time := now, phase := "image_generation",
                    session_image_dir := "downloads/minimax_images/" ++ sid,
                    session_video_dir := "downloads/videos/" ++ sid },
            completed := [], generated := [],
            saves := [{ session_id := some sid, total_prompts := prompts.length,
                        prompts := some prompts, completed_images := [],
                        generated_images := [], start_time := now,
                        phase := "image_generation",
                        session_image_dir := "downloads/minimax_images/" ++ sid,
                        session_video_dir := "downloads/videos/" ++ sid }] } := by
  simp [generateImages, List.isEmpty_iff, hne]

/-- Unfolding `generate_images` on a resumed session with work left. -/
theorem generateImages_resume_eq (inner : Nat → String → ImgGenResult) (sid : String)
    (prompts : List String) (now : Nat) (cp : Checkpoint) (hsid : cp.session_id ≠ none)
    (hne : prompts.drop cp.completed_images.length ≠ []) :
    generateImages inner sid prompts (some cp) now
      = runImageBatches (imageItemTask inner) now cp.completed_images.length
          (prompts.drop cp.completed_images.length)
          { cp := cp, completed := cp.completed_images, generated := cp.generated_images,
            saves := [] } := by
  simp [generateImages, List.isEmpty_iff, hne, hsid]

/-- Unfolding `generate_images` on a resumed session with nothing left. -/
theorem generateImages_resume_done_eq (inner : Nat → String → ImgGenResult) (sid : String)
    (prompts : List String) (now : Nat) (cp : Checkpoint) (hsid : cp.session_id ≠ none)
    (hdone : prompts.drop cp.completed_images.length = []) :
    generateImages inner sid prompts (some cp) now
      = { result := .ok cp.generated_images, saves := [], calls := [] } := by
  simp [generateImages, List.isEmpty_iff, hdone, hsid]

/-- A fresh, fully successful `generate_images` run produces the outputs of
items `0 .. N-1` in order and starts every item. -/
theorem generateImages_fresh_ok (inner : Nat → String → ImgGenResult) (f : Nat → ImgResult)
    (sid : String) (prompts : List String) (now : Nat)
    (hsucc : ∀ i, i < prompts.length →
      imageItemTask inner i (prompts.getD i "") = .ok (f i)) :
    (generateImages inner sid prompts none now).result = .ok ((List.range prompts.length).map f)
    ∧ (generateImages inner sid prompts none now).calls = List.range prompts.length := by
  have hsucc0 : ∀ i, i < prompts.length →
      imageItemTask inner (0 + i) (prompts.getD i "") = .ok (f (0 + i)) := by
    intro i hi
    simpa using hsucc i hi
  by_cases hp : prompts = []
  · subst hp
    constructor <;> simp [generateImages]
  · rw [generateImages_fresh_eq inner sid prompts now hp]
    obtain ⟨h1, h2⟩ := runImageBatches_ok (imageItemTask inner) f now prompts 0 _ hsucc0
    rw [h1, h2]
    constructor
    · simp [List.range_eq_range']
    · simp [List.range_eq_range']

/-- Resuming `generate_images` from a checkpoint holding `k` completed items
processes only items `k .. N-1` and appends their outputs to the stored
results; a fully complete checkpoint returns the stored results untouched
with no item started and nothing written. -/
theorem generateImages_resume_ok (inner : Nat → String → ImgGenResult) (f : Nat → ImgResult)
    (sid : String) (prompts : List String) (now : Nat) (cp : Checkpoint)
    (hsid : cp.session_id ≠ none)
    (hk : cp.completed_images.length ≤ prompts.length)
    (hsucc : ∀ i, cp.completed_images.length ≤ i → i < prompts.length →
      imageItemTask inner i (prompts.getD i "") = .ok (f i)) :
    (generateImages inner sid prompts (some cp) now).result
        = .ok (cp.generated_images
            ++ (List.range' cp.completed_images.length
                  (prompts.length - cp.completed_images.length)).map f)
    ∧ (generateImages inner sid prompts (some cp) now).calls
        = List.range' cp.completed_images.length (prompts.length - cp.completed_images.length)
    ∧ (cp.completed_images.length = prompts.length →
        (generateImages inner sid prompts (some cp) now).saves = []) := by
  have hsucck : ∀ i, i < (prompts.drop cp.completed_images.length).length →
      imageItemTask inner (cp.completed_images.length + i)
        ((prompts.drop cp.completed_images.length).getD i "")
        = .ok (f (cp.completed_images.length + i)) := by
    intro i hi
    have hi2 : cp.completed_images.length + i < prompts.length := by
      simp only [List.length_drop] at hi
      omega
    have hgd : (prompts.drop cp.completed_images.length).getD i ""
        = prompts.getD (cp.completed_images.length + i) "" := by
      rw [List.getD_eq_getElem _ "" hi, List.getD_eq_getElem _ "" hi2]
      exact List.getElem_drop prompts
    rw [hgd]
    exact hsucc (cp.completed_images.length + i) (by omega) hi2
  by_cases hfull : cp.completed_images.length = prompts.length
  · have hdone : prompts.drop cp.completed_images.length = [] := by
      rw [List.drop_eq_nil_iff]
      omega
    rw [generateImages_resume_done_eq inner sid prompts now cp hsid hdone]
    refine ⟨by simp [hfull], by simp [hfull], fun _ => rfl⟩
  · have hne : prompts.drop cp.completed_images.length ≠ [] := by
      rw [Ne, List.drop_eq_nil_iff]
      omega
    rw [generateImages_resume_eq inner sid prompts now cp hsid hne]
    obtain ⟨h1, h2⟩ := runImageBatches_ok (imageItemTask inner) f now
      (prompts.drop cp.completed_images.length) cp.completed_images.length _ hsucck
    simp only [List.length_drop] at h1 h2
    rw [h1, h2]
    refine ⟨?_, ?_, fun h => absurd h hfull⟩ <;> simp

/-- Unfolding `create_videos_with_prompts` on a fresh session with work to do. -/
theorem createVideos_fresh_eq (pathExists : String → Bool)
    (innerV : Nat → String → Option String → String) (sid : String)
    (imagePaths : List String) (videoPrompts : Option (List String)) (now : Nat)
    (hne : imagePaths ≠ []) :
    createVideosWithPrompts pathExists innerV sid imagePaths videoPrompts none now
      = runVideoBatches (videoItemTask pathExists innerV videoPrompts) now 0 imagePaths
          { cp := { session_id := some sid, total_images := imagePaths.length,
                    images := imagePaths, prompts := videoPrompts, completed_videos := [],
                    video_paths := [], start_time := now, phase := "video_generation",
                    session_image_dir := "downloads/minimax_images/" ++ sid,
                    session_video_dir := "downloads/videos/" ++ sid },
            completed := [], video_paths := [],
            saves := [{ session_id := some sid, total_images := imagePaths.length,
                        images := imagePaths, prompts := videoPrompts,
                        completed_videos := [], video_paths := [], start_time := now,
                        phase := "video_generation",
                        session_image_dir := "downloads/minimax_images/" ++ sid,
                        session_video_dir := "downloads/videos/" ++ sid }] } := by
  simp [createVideosWithPrompts, List.isEmpty_iff, hne]

/-- Unfolding `create_videos_with_prompts` on a resumed session with work left. -/
theorem createVideos_resume_eq (pathExists : String → Bool)
    (innerV : Nat → String → Option String → String) (sid : String)
    (imagePaths : List String) (videoPrompts : Option (List String)) (now : Nat)
    (cp : Checkpoint) (hsid : cp.session_id ≠ none)
    (hne : imagePaths.drop cp.completed_videos.length ≠ []) :
    createVideosWithPrompts pathExists innerV sid imagePaths videoPrompts (some cp) now
      = runVideoBatches (videoItemTask pathExists innerV videoPrompts) now
          cp.completed_videos.length (imagePaths.drop cp.completed_videos.length)
          { cp := { cp with phase := "video_generation", images := imagePaths,
                            prompts := videoPrompts, video_start_time := some now },
            completed := cp.completed_videos, video_paths := cp.video_paths,
            saves := [{ cp with phase := "video_generation", images := imagePaths,
                                prompts := videoPrompts, video_start_time := some now }] } := by
  simp [createVideosWithPrompts, List.isEmpty_iff, hne, hsid]

/-- Unfolding `create_videos_with_prompts` on a resumed session with nothing
left: the stored paths are returned, but the phase-transition checkpoint is
still written once. -/
theorem createVideos_resume_done_eq (pathExists : String → Bool)
    (innerV : Nat → String → Option String → String) (sid : String)
    (imagePaths : List String) (videoPrompts : Option (List String)) (now : Nat)
    (cp : Checkpoint) (hsid : cp.session_id ≠ none)
    (hdone : imagePaths.drop cp.completed_videos.length = []) :
    createVideosWithPrompts pathExists innerV sid imagePaths videoPrompts (some cp) now
      = { result := .ok cp.video_paths,
          saves := [{ cp with phase := "video_generation", images := imagePaths,
                              prompts := videoPrompts, video_start_time := some now }],
          calls := [] } := by
  simp [createVideosWithPrompts, List.isEmpty_iff, hdone, hsid]

/-- A fresh, fully successful `create_videos_with_prompts` run produces the
videos of items `0 .. N-1` in order and starts every item. -/
theorem createVideos_fresh_ok (pathExists : String → Bool)
    (innerV : Nat → String → Option String → String) (gg : Nat → Nat × String)
    (sid : String) (imagePaths : List String) (videoPrompts : Option (List String)) (now : Nat)
    (hsucc : ∀ i, i < imagePaths.length →
      videoItemTask pathExists innerV videoPrompts i (imagePaths.getD i "") = .ok (gg i)) :
    (createVideosWithPrompts pathExists innerV sid imagePaths videoPrompts none now).result
        = .ok (((List.range imagePaths.length).map gg).map Prod.snd)
    ∧ (createVideosWithPrompts pathExists innerV sid imagePaths videoPrompts none now).calls
        = List.range imagePaths.length := by
  have hsucc0 : ∀ i, i < imagePaths.length →
      videoItemTask pathExists innerV videoPrompts (0 + i) (imagePaths.getD i "")
        = .ok (gg (0 + i)) := by
    intro i hi
    simpa using hsucc i hi
  by_cases hp : imagePaths = []
  · subst hp
    constructor <;> simp [createVideosWithPrompts]
  · rw [createVideos_fresh_eq pathExists innerV sid imagePaths videoPrompts now hp]
    obtain ⟨h1, h2⟩ := runVideoBatches_ok (videoItemTask pathExists innerV videoPrompts) gg now
      imagePaths 0 _ hsucc0
    rw [h1, h2]
    constructor
    · simp [List.range_eq_range']
    · simp [List.range_eq_range']

/-- Resuming `create_videos_with_prompts` from a checkpoint holding `k`
completed items processes only items `k .. N-1`; a fully complete checkpoint
returns the stored paths and starts no item. -/
theorem createVideos_resume_ok (pathExists : String → Bool)
    (innerV : Nat → String → Option String → String) (gg : Nat → Nat × String)
    (sid : String) (imagePaths : List String) (videoPrompts : Option (List String)) (now : Nat)
    (cp : Checkpoint) (hsid : cp.session_id ≠ none)
    (hk : cp.completed_videos.length ≤ imagePaths.length)
    (hsucc : ∀ i, cp.completed_videos.length ≤ i → i < imagePaths.length →
      videoItemTask pathExists innerV videoPrompts i (imagePaths.getD i "") = .ok (gg i)) :
    (createVideosWithPrompts pathExists innerV sid imagePaths videoPrompts (some cp) now).result
        = .ok (cp.video_paths
            ++ (((List.range' cp.completed_videos.length
                  (imagePaths.length - cp.completed_videos.length)).map gg).map Prod.snd))
    ∧ (createVideosWithPrompts pathExists innerV sid imagePaths videoPrompts (some cp) now).calls
        = List.range' cp.completed_videos.length
            (imagePaths.length - cp.completed_videos.length) := by
  have hsucck : ∀ i, i < (imagePaths.drop cp.completed_videos.length).length →
      videoItemTask pathExists innerV videoPrompts (cp.completed_videos.length + i)
        ((imagePaths.drop cp.completed_videos.length).getD i "")
        = .ok (gg (cp.completed_videos.length + i)) := by
    intro i hi
    have hi2 : cp.completed_videos.length + i < imagePaths.length := by
      simp only [List.length_drop] at hi
      omega
    have hgd : (imagePaths.drop cp.completed_videos.length).getD i ""
        = imagePaths.getD (cp.completed_videos.length + i) "" := by
      rw [List.getD_eq_getElem _ "" hi, List.getD_eq_getElem _ "" hi2]
      exact List.getElem_drop imagePaths
    rw [hgd]
    exact hsucc (cp.completed_videos.length + i) (by omega) hi2
  by_cases hfull : cp.completed_videos.length = imagePaths.length
  · have hdone : imagePaths.drop cp.completed_videos.length = [] := by
      rw [List.drop_eq_nil_iff]
      omega
    rw [createVideos_resume_done_eq pathExists innerV sid imagePaths videoPrompts now cp hsid hdone]
    refine ⟨by simp [hfull], by simp [hfull]⟩
  · have hne : imagePaths.drop cp.completed_videos.length ≠ [] := by
      rw [Ne, List.drop_eq_nil_iff]
      omega
    rw [createVideos_resume_eq pathExists innerV sid imagePaths videoPrompts now cp hsid hne]
    obtain ⟨h1, h2⟩ := runVideoBatches_ok (videoItemTask pathExists innerV videoPrompts) gg now
      (imagePaths.drop cp.completed_videos.length) cp.completed_videos.length _ hsucck
    simp only [List.length_drop] at h1 h2
    rw [h1, h2]
    constructor <;> simp

/-! ## C2: resumption correctness -/

/-- C2: for both schedulers, a fresh uninterrupted run over N items returns
the item outputs in order; re-invoking with a checkpoint committed for items
`0 .. k-1` processes only items `k .. N-1` and returns a result list equal
to the uninterrupted run's; re-invoking an already fully-completed session
returns the stored results and processes no items. -/
theorem resumption_correctness
    (inner : Nat → String → ImgGenResult) (f : Nat → ImgResult)
    (pathExists : String → Bool) (innerV : Nat → String → Option String → String)
    (g : Nat → String)
    (sid : String) (prompts imagePaths : List String) (videoPrompts : Option (List String))
    (now now2 : Nat) (cp cpv : Checkpoint)
    (hsucc : ∀ i, i < prompts.length → imageItemTask inner i (prompts.getD i "") = .ok (f i))
    (hsid : cp.session_id ≠ none)
    (hk : cp.completed_images.length ≤ prompts.length)
    (hgen : cp.generated_images = (List.range cp.completed_images.length).map f)
    (hsuccv : ∀ i, i < imagePaths.length →
      videoItemTask pathExists innerV videoPrompts i (imagePaths.getD i "") = .ok (i, g i))
    (hsidv : cpv.session_id ≠ none)
    (hkv : cpv.completed_videos.length ≤ imagePaths.length)
    (hgenv : cpv.video_paths = (List.range cpv.completed_videos.length).map g) :
    (generateImages inner sid prompts none now).result = .ok ((List.range prompts.length).map f)
    ∧ (generateImages inner sid prompts (some cp) now2).result
        = (generateImages inner sid prompts none now).result
    ∧ (generateImages inner sid prompts (some cp) now2).calls
        = List.range' cp.completed_images.length (prompts.length - cp.completed_images.length)
    ∧ (cp.completed_images.length = prompts.length →
        (generateImages inner sid prompts (some cp) now2).calls = []
        ∧ (generateImages inner sid prompts (some cp) now2).result = .ok cp.generated_images)
    ∧ (createVideosWithPrompts pathExists innerV sid imagePaths videoPrompts none now).result
        = .ok ((List.range imagePaths.length).map g)
    ∧ (createVideosWithPrompts pathExists innerV sid imagePaths videoPrompts (some cpv) now2).result
        = (createVideosWithPrompts pathExists innerV sid imagePaths videoPrompts none now).result
    ∧ (createVideosWithPrompts pathExists innerV sid imagePaths videoPrompts (some cpv) now2).calls
        = List.range' cpv.completed_videos.length
            (imagePaths.length - cpv.completed_videos.length)
    ∧ (cpv.completed_videos.length = imagePaths.length →
        (createVideosWithPrompts pathExists innerV sid imagePaths videoPrompts (some cpv) now2).calls = []
        ∧ (createVideosWithPrompts pathExists innerV sid imagePaths videoPrompts (some cpv) now2).result
            = .ok cpv.video_paths) := by
  have hsplit : (List.range cp.completed_images.length).map f
      ++ (List.range' cp.completed_images.length
            (prompts.length - cp.completed_images.length)).map f
      = (List.range prompts.length).map f := by
    rw [← List.map_append, List.range_eq_range', List.range_eq_range']
    have := List.range'_append 0 cp.completed_images.length
      (prompts.length - cp.completed_images.length) 1
    simp only [Nat.one_mul, Nat.zero_add] at this
    rw [this, show prompts.length - cp.completed_images.length + cp.completed_images.length
      = prompts.length by omega]
  have hsplitv : (List.range cpv.completed_videos.length).map g
      ++ (((List.range' cpv.completed_videos.length
            (imagePaths.length - cpv.completed_videos.length)).map (fun i => (i, g i))).map Prod.snd)
      = (List.range imagePaths.length).map g := by
    rw [List.map_map, show (Prod.snd ∘ fun i => (i, g i)) = g from rfl, ← List.map_append,
      List.range_eq_range', List.range_eq_range']
    have := List.range'_append 0 cpv.completed_videos.length
      (imagePaths.length - cpv.completed_videos.length) 1
    simp only [Nat.one_mul, Nat.zero_add] at this
    rw [this, show imagePaths.length - cpv.completed_videos.length + cpv.completed_videos.length
      = imagePaths.length by omega]
  obtain ⟨hf1, _⟩ := generateImages_fresh_ok inner f sid prompts now hsucc
  obtain ⟨hr1, hr2, _⟩ := generateImages_resume_ok inner f sid prompts now2 cp hsid hk
    (fun i _ hi => hsucc i hi)
  obtain ⟨hvf1, _⟩ := createVideos_fresh_ok pathExists innerV (fun i => (i, g i)) sid imagePaths
    videoPrompts now hsuccv
  obtain ⟨hvr1, hvr2⟩ := createVideos_resume_ok pathExists innerV (fun i => (i, g i)) sid
    imagePaths videoPrompts now2 cpv hsidv hkv (fun i _ hi => hsuccv i hi)
  have hvfresh : (createVideosWithPrompts pathExists innerV sid imagePaths videoPrompts
      none now).result = .ok ((List.range imagePaths.length).map g) := by
    rw [hvf1, List.map_map, show (Prod.snd ∘ fun i => (i, g i)) = g from rfl]
  refine ⟨hf1, ?_, hr2, ?_, hvfresh, ?_, hvr2, ?_⟩
  · rw [hr1, hf1, hgen, hsplit]
  · intro hfull
    constructor
    · rw [hr2, hfull]
      simp
    · rw [hr1, hfull]
      simp
  · rw [hvr1, hvfresh, hgenv, hsplitv]
  · intro hfull
    constructor
    · rw [hvr2, hfull]
      simp
    · rw [hvr1, hfull]
      simp

/-! ## C3: index fidelity under out-of-order completion -/

/-- C3: `gather` places each task's result at the task's submission
position no matter in which order the tasks complete (any permutation
`order` of the task positions yields the same result list), and a
successful scheduler run therefore commits item i's output at position i of
the results array for both phases, preserving index-based pairing of
stage-1 outputs with stage-2 inputs. -/
theorem index_fidelity_out_of_order
    (outs : List (Except String ImgResult)) (h : Nat → ImgResult) (order : List Nat)
    (hperm : order.Perm (List.range outs.length))
    (houts : ∀ i, i < outs.length → outs.getD i (.error "") = .ok (h i))
    (inner : Nat → String → ImgGenResult) (f : Nat → ImgResult)
    (pathExists : String → Bool) (innerV : Nat → String → Option String → String)
    (g : Nat → String) (sid : String) (prompts imagePaths : List String)
    (videoPrompts : Option (List String)) (now : Nat)
    (hsucc : ∀ i, i < prompts.length → imageItemTask inner i (prompts.getD i "") = .ok (f i))
    (hsuccv : ∀ i, i < imagePaths.length →
      videoItemTask pathExists innerV videoPrompts i (imagePaths.getD i "") = .ok (i, g i)) :
    gatherSched outs order = .ok ((List.range outs.length).map h)
    ∧ (∃ res, (generateImages inner sid prompts none now).result = .ok res
        ∧ res.length = prompts.length
        ∧ ∀ i, i < prompts.length → res.getD i (.path "") = f i)
    ∧ (∃ resv, (createVideosWithPrompts pathExists innerV sid imagePaths videoPrompts
          none now).result = .ok resv
        ∧ resv.length = imagePaths.length
        ∧ ∀ i, i < imagePaths.length → resv.getD i "" = g i) := by
  have houtsElem : ∀ i (hi : i < outs.length), outs[i] = .ok (h i) := by
    intro i hi
    rw [← List.getD_eq_getElem outs (.error "") hi]
    exact houts i hi
  have houtsEq : outs = ((List.range outs.length).map h).map Except.ok := by
    refine List.ext_getElem (by simp) fun i h1 h2 => ?_
    rw [houtsElem i h1]
    simp
  refine ⟨?_, ?_, ?_⟩
  · unfold gatherSched
    split
    · rename_i e heq
      obtain ⟨j, hj, hmatch⟩ := List.exists_of_findSome?_eq_some heq
      have hjlt : j < outs.length := by
        have := hperm.mem_iff.mp hj
        simpa using this
      rw [List.get?_eq_getElem?, List.getElem?_eq_getElem hjlt, houtsElem j hjlt] at hmatch
      simp at hmatch
    · conv_lhs => rw [houtsEq]
      exact gatherExcept_map_ok _
  · obtain ⟨h1, _⟩ := generateImages_fresh_ok inner f sid prompts now hsucc
    refine ⟨(List.range prompts.length).map f, h1, by simp, fun i hi => ?_⟩
    have hi2 : i < ((List.range prompts.length).map f).length := by simpa using hi
    rw [List.getD_eq_getElem _ _ hi2]
    simp
  · obtain ⟨h1, _⟩ := createVideos_fresh_ok pathExists innerV (fun i => (i, g i)) sid imagePaths
      videoPrompts now hsuccv
    rw [List.map_map, show (Prod.snd ∘ fun i => (i, g i)) = g from rfl] at h1
    refine ⟨(List.range imagePaths.length).map g, h1, by simp, fun i hi => ?_⟩
    have hi2 : i < ((List.range imagePaths.length).map g).length := by simpa using hi
    rw [List.getD_eq_getElem _ _ hi2]
    simp

/-! ## C5: checkpoint progress invariant -/

/-- The image-phase invariant: as many committed indices as results, all
indices within the run's item count. -/
def imageCkptInv (N : Nat) (cp : Checkpoint) : Prop :=
  cp.completed_images.length = cp.generated_images.length
  ∧ ∀ i ∈ cp.completed_images, i < N

/-- The video-phase invariant. -/
def videoCkptInv (N : Nat) (cp : Checkpoint) : Prop :=
  cp.completed_videos.length = cp.video_paths.length
  ∧ ∀ i ∈ cp.completed_videos, i < N

instance (N : Nat) (cp : Checkpoint) : Decidable (imageCkptInv N cp) := by
  unfold imageCkptInv
  infer_instance

instance (N : Nat) (cp : Checkpoint) : Decidable (videoCkptInv N cp) := by
  unfold videoCkptInv
  infer_instance

theorem gatherExcept_ok_length {α : Type} :
    ∀ (l : List (Except String α)) (r : List α), gatherExcept l = .ok r → r.length = l.length
  | [], r, h => by
    simp only [gatherExcept, Except.ok.injEq] at h
    simp [← h]
  | .error e :: rest, r, h => by
    simp [gatherExcept] at h
  | .ok a :: rest, r, h => by
    simp only [gatherExcept] at h
    rcases hg : gatherExcept rest with e2 | r2 <;> rw [hg] at h
    · simp at h
    · simp only [Except.ok.injEq] at h
      have := gatherExcept_ok_length rest r2 hg
      simp [← h, this]

theorem commitImages_inv (now N : Nat) :
    ∀ (rs : List ImgResult) (st : CommitState) (realStart : Nat),
    st.completed.length = st.generated.length →
    (∀ i ∈ st.completed, i < N) →
    imageCkptInv N st.cp →
    realStart + rs.length ≤ N →
    (∀ s ∈ st.saves, imageCkptInv N s) →
    ((commitImages now st realStart rs).completed.length
        = (commitImages now st realStart rs).generated.length
     ∧ (∀ i ∈ (commitImages now st realStart rs).completed, i < N)
     ∧ imageCkptInv N (commitImages now st realStart rs).cp
     ∧ ∀ s ∈ (commitImages now st realStart rs).saves, imageCkptInv N s)
  | [], st, realStart, hlen, hmem, hcp, _, hsaves => ⟨hlen, hmem, hcp, hsaves⟩
  | r :: rs, st, realStart, hlen, hmem, hcp, hbound, hsaves => by
    have hrlt : realStart < N := by
      simp only [List.length_cons] at hbound
      omega
    have hlen1 : (st.completed ++ [realStart]).length = (st.generated ++ [r]).length := by
      simp [hlen]
    have hmem1 : ∀ i ∈ st.completed ++ [realStart], i < N := by
      intro i hi
      rcases List.mem_append.mp hi with hi | hi
      · exact hmem i hi
      · simp at hi
        omega
    have hcp1 : imageCkptInv N { st.cp with
        completed_images := st.completed ++ [realStart]
        generated_images := st.generated ++ [r]
        last_completed_index := some realStart
        last_update := some now } := ⟨hlen1, hmem1⟩
    refine commitImages_inv now N rs _ (realStart + 1) hlen1 hmem1 hcp1
      (by simp only [List.length_cons] at hbound; omega) ?_
    intro s hs
    rcases List.mem_append.mp hs with hs | hs
    · exact hsaves s hs
    · simp only [List.mem_singleton] at hs
      rw [hs]
      exact hcp1

theorem imageBatchStep_ok_inv (task : Nat → String → Except String ImgResult)
    (now N startIndex : Nat) (batch : List String) (st : CommitState)
    (hbound : startIndex + batch.length ≤ N)
    (hlen : st.completed.length = st.generated.length)
    (hmem : ∀ i ∈ st.completed, i < N)
    (hcp : imageCkptInv N st.cp)
    (hsaves : ∀ s ∈ st.saves, imageCkptInv N s) :
    ∀ st1 calls, imageBatchStep task now startIndex batch st = (.ok st1, calls) →
      (st1.completed.length = st1.generated.length ∧ (∀ i ∈ st1.completed, i < N)
       ∧ imageCkptInv N st1.cp ∧ ∀ s ∈ st1.saves, imageCkptInv N s) := by
  intro st1 calls hstep
  simp only [imageBatchStep] at hstep
  rcases hg : gatherExcept (batch.enum.map fun ip => task (startIndex + ip.1) ip.2)
    with e | results <;> rw [hg] at hstep
  · simp at hstep
  · simp only [Prod.mk.injEq, Except.ok.injEq] at hstep
    have hrlen : results.length = batch.length := by
      have := gatherExcept_ok_length _ _ hg
      simpa using this
    rw [← hstep.1]
    exact commitImages_inv now N results st startIndex hlen hmem hcp
      (by rw [hrlen]; exact hbound) hsaves

theorem finishImage_inv (now N : Nat) (st : CommitState)
    (hcp : imageCkptInv N st.cp)
    (hsaves : ∀ s ∈ st.saves, imageCkptInv N s) :
    ∀ s ∈ (finishImage now st).saves, imageCkptInv N s := by
  intro s hs
  simp only [finishImage, List.mem_append, List.mem_singleton] at hs
  rcases hs with hs | hs
  · exact hsaves s hs
  · rw [hs]
    exact hcp

theorem runImageBatches_inv (task : Nat → String → Except String ImgResult) (now N : Nat) :
    ∀ (remaining : List String) (startIndex : Nat) (st : CommitState),
    startIndex + remaining.length ≤ N →
    st.completed.length = st.generated.length →
    (∀ i ∈ st.completed, i < N) →
    imageCkptInv N st.cp →
    (∀ s ∈ st.saves, imageCkptInv N s) →
    ∀ s ∈ (runImageBatches task now startIndex remaining st).saves, imageCkptInv N s
  | [], startIndex, st, _, _, _, hcp, hsaves => by
    simpa [runImageBatches] using finishImage_inv now N st hcp hsaves
  | p0 :: p1 :: p2 :: p3 :: rest, startIndex, st, hbound, hlen, hmem, hcp, hsaves => by
    rcases hstep : imageBatchStep task now startIndex [p0, p1, p2, p3] st with ⟨res, calls⟩
    cases res with
    | error e =>
      simp only [runImageBatches, hstep]
      exact hsaves
    | ok st1 =>
      obtain ⟨hlen1, hmem1, hcp1, hsaves1⟩ := imageBatchStep_ok_inv task now N startIndex
        [p0, p1, p2, p3] st (by simp only [List.length_cons] at hbound ⊢; simp; omega)
        hlen hmem hcp hsaves st1 calls hstep
      simp only [runImageBatches, hstep]
      intro s hs
      refine runImageBatches_inv task now N rest (startIndex + 4) st1 ?_ hlen1 hmem1 hcp1 hsaves1 s hs
      simp only [List.length_cons] at hbound
      omega
  | [p0], startIndex, st, hbound, hlen, hmem, hcp, hsaves => by
    rcases hstep : imageBatchStep task now startIndex [p0] st with ⟨res, calls⟩
    cases res with
    | error e =>
      simp only [runImageBatches, hstep]
      exact hsaves
    | ok st1 =>
      obtain ⟨hlen1, hmem1, hcp1, hsaves1⟩ := imageBatchStep_ok_inv task now N startIndex
        [p0] st (by simpa using hbound) hlen hmem hcp hsaves st1 calls hstep
      simp only [runImageBatches, hstep]
      exact finishImage_inv now N st1 hcp1 hsaves1
  | [p0, p1], startIndex, st, hbound, hlen, hmem, hcp, hsaves => by
    rcases hstep : imageBatchStep task now startIndex [p0, p1] st with ⟨res, calls⟩
    cases res with
    | error e =>
      simp only [runImageBatches, hstep]
      exact hsaves
    | ok st1 =>
      obtain ⟨hlen1, hmem1, hcp1, hsaves1⟩ := imageBatchStep_ok_inv task now N startIndex
        [p0, p1] st (by simpa using hbound) hlen hmem hcp hsaves st1 calls hstep
      simp only [runImageBatches, hstep]
      exact finishImage_inv now N st1 hcp1 hsaves1
  | [p0, p1, p2], startIndex, st, hbound, hlen, hmem, hcp, hsaves => by
    rcases hstep : imageBatchStep task now startIndex [p0, p1, p2] st with ⟨res, calls⟩
    cases res with
    | error e =>
      simp only [runImageBatches, hstep]
      exact hsaves
    | ok st1 =>
      obtain ⟨hlen1, hmem1, hcp1, hsaves1⟩ := imageBatchStep_ok_inv task now N startIndex
        [p0, p1, p2] st (by simpa using hbound) hlen hmem hcp hsaves st1 calls hstep
      simp only [runImageBatches, hstep]
      exact finishImage_inv now N st1 hcp1 hsaves1

theorem gatherExcept_ok_mem {α : Type} :
    ∀ (l : List (Except String α)) (r : List α), gatherExcept l = .ok r →
      ∀ b ∈ r, Except.ok b ∈ l
  | [], r, h => by
    simp only [gatherExcept, Except.ok.injEq] at h
    simp [← h]
  | .error e :: rest, r, h => by
    simp [gatherExcept] at h
  | .ok a :: rest, r, h => by
    simp only [gatherExcept] at h
    rcases hg : gatherExcept rest with e2 | r2 <;> rw [hg] at h
    · simp at h
    · simp only [Except.ok.injEq] at h
      intro b hb
      rw [← h] at hb
      rcases List.mem_cons.mp hb with hb | hb
      · simp [hb]
      · exact List.mem_cons_of_mem _ (gatherExcept_ok_mem rest r2 hg b hb)

/-- `create_single_video` returns its own `real_index` in the result pair. -/
theorem videoItemTask_fst (pathExists : String → Bool)
    (innerV : Nat → String → Option String → String) (vps : Option (List String))
    (realIndex : Nat) (imagePath : String) (r : Nat × String)
    (h : videoItemTask pathExists innerV vps realIndex imagePath = .ok r) : r.1 = realIndex := by
  unfold videoItemTask at h
  split at h
  · simp at h
  · by_cases hvp : innerV realIndex imagePath (scenePromptFor vps realIndex) = ""
    · simp [hvp] at h
    · simp [hvp] at h
      simp [← h]

theorem commitVideos_inv (now N : Nat) :
    ∀ (rs : List (Nat × String)) (st : VCommitState),
    st.completed.length = st.video_paths.length →
    (∀ i ∈ st.completed, i < N) →
    videoCkptInv N st.cp →
    (∀ pr ∈ rs, pr.1 < N) →
    (∀ s ∈ st.saves, videoCkptInv N s) →
    ((commitVideos now st rs).completed.length = (commitVideos now st rs).video_paths.length
     ∧ (∀ i ∈ (commitVideos now st rs).completed, i < N)
     ∧ videoCkptInv N (commitVideos now st rs).cp
     ∧ ∀ s ∈ (commitVideos now st rs).saves, videoCkptInv N s)
  | [], st, hlen, hmem, hcp, _, hsaves => ⟨hlen, hmem, hcp, hsaves⟩
  | (i0, v0) :: rs, st, hlen, hmem, hcp, hidx, hsaves => by
    have hi0 : i0 < N := by
      have := hidx (i0, v0) (by simp)
      simpa using this
    have hlen1 : (st.completed ++ [i0]).length = (st.video_paths ++ [v0]).length := by
      simp [hlen]
    have hmem1 : ∀ i ∈ st.completed ++ [i0], i < N := by
      intro i hi
      rcases List.mem_append.mp hi with hi | hi
      · exact hmem i hi
      · simp at hi
        omega
    have hcp1 : videoCkptInv N { st.cp with
        completed_videos := st.completed ++ [i0]
        video_paths := st.video_paths ++ [v0]
        last_completed_index := some i0
        last_update := some now } := ⟨hlen1, hmem1⟩
    refine commitVideos_inv now N rs _ hlen1 hmem1 hcp1
      (fun pr hpr => hidx pr (List.mem_cons_of_mem _ hpr)) ?_
    intro s hs
    rcases List.mem_append.mp hs with hs | hs
    · exact hsaves s hs
    · simp only [List.mem_singleton] at hs
      rw [hs]
      exact hcp1

theorem videoBatchStep_ok_inv (task : Nat → String → Except String (Nat × String))
    (now N startIndex : Nat) (batch : List String) (st : VCommitState)
    (htask : ∀ i p r, task i p = .ok r → r.1 = i)
    (hbound : startIndex + batch.length ≤ N)
    (hlen : st.completed.length = st.video_paths.length)
    (hmem : ∀ i ∈ st.completed, i < N)
    (hcp : videoCkptInv N st.cp)
    (hsaves : ∀ s ∈ st.saves, videoCkptInv N s) :
    ∀ st1 calls, videoBatchStep task now startIndex batch st = (.ok st1, calls) →
      (st1.completed.length = st1.video_paths.length ∧ (∀ i ∈ st1.completed, i < N)
       ∧ videoCkptInv N st1.cp ∧ ∀ s ∈ st1.saves, videoCkptInv N s) := by
  intro st1 calls hstep
  simp only [videoBatchStep] at hstep
  rcases hg : gatherExcept (batch.enum.map fun ip => task (startIndex + ip.1) ip.2)
    with e | results <;> rw [hg] at hstep
  · simp at hstep
  · simp only [Prod.mk.injEq, Except.ok.injEq] at hstep
    have hidx : ∀ pr ∈ results, pr.1 < N := by
      intro pr hpr
      have hmemouts := gatherExcept_ok_mem _ _ hg pr hpr
      obtain ⟨ip, hip, heq⟩ := List.mem_map.mp hmemouts
      have hip1 : ip.1 < batch.length := by
        have := List.mem_enum_iff_getElem?.mp hip
        exact (List.getElem?_eq_some_iff.mp this).1
      have := htask (startIndex + ip.1) ip.2 pr heq
      omega
    rw [← hstep.1]
    exact commitVideos_inv now N results st hlen hmem hcp hidx hsaves

theorem finishVideo_inv (now N : Nat) (st : VCommitState)
    (hcp : videoCkptInv N st.cp)
    (hsaves : ∀ s ∈ st.saves, videoCkptInv N s) :
    ∀ s ∈ (finishVideo now st).saves, videoCkptInv N s := by
  intro s hs
  simp only [finishVideo, List.mem_append, List.mem_singleton] at hs
  rcases hs with hs | hs
  · exact hsaves s hs
  · rw [hs]
    exact hcp

theorem runVideoBatches_inv (task : Nat → String → Except String (Nat × String)) (now N : Nat)
    (htask : ∀ i p r, task i p = .ok r → r.1 = i) :
    ∀ (remaining : List String) (startIndex : Nat) (st : VCommitState),
    startIndex + remaining.length ≤ N →
    st.completed.length = st.video_paths.length →
    (∀ i ∈ st.completed, i < N) →
    videoCkptInv N st.cp →
    (∀ s ∈ st.saves, videoCkptInv N s) →
    ∀ s ∈ (runVideoBatches task now startIndex remaining st).saves, videoCkptInv N s
  | [], startIndex, st, _, _, _, hcp, hsaves => by
    simpa [runVideoBatches] using finishVideo_inv now N st hcp hsaves
  | p0 :: p1 :: rest, startIndex, st, hbound, hlen, hmem, hcp, hsaves => by
    rcases hstep : videoBatchStep task now startIndex [p0, p1] st with ⟨res, calls⟩
    cases res with
    | error e =>
      simp only [runVideoBatches, hstep]
      exact hsaves
    | ok st1 =>
      obtain ⟨hlen1, hmem1, hcp1, hsaves1⟩ := videoBatchStep_ok_inv task now N startIndex
        [p0, p1] st htask (by simp only [List.length_cons] at hbound ⊢; simp; omega)
        hlen hmem hcp hsaves st1 calls hstep
      simp only [runVideoBatches, hstep]
      intro s hs
      refine runVideoBatches_inv task now N htask rest (startIndex + 2) st1 ?_
        hlen1 hmem1 hcp1 hsaves1 s hs
      simp only [List.length_cons] at hbound
      omega
  | [p0], startIndex, st, hbound, hlen, hmem, hcp, hsaves => by
    rcases hstep : videoBatchStep task now startIndex [p0] st with ⟨res, calls⟩
    cases res with
    | error e =>
      simp only [runVideoBatches, hstep]
      exact hsaves
    | ok st1 =>
      obtain ⟨hlen1, hmem1, hcp1, hsaves1⟩ := videoBatchStep_ok_inv task now N startIndex
        [p0] st htask (by simpa using hbound) hlen hmem hcp hsaves st1 calls hstep
      simp only [runVideoBatches, hstep]
      exact finishVideo_inv now N st1 hcp1 hsaves1

/-- C5: after every checkpoint save performed during a run (fresh, or
resumed from a checkpoint that itself satisfies the invariant), the length
of the completed-indices list equals the length of the results list
(`completed_images`/`generated_images` in the image phase,
`completed_videos`/`video_paths` in the video phase) and every recorded
completed index lies within the run's item count. -/
theorem checkpoint_progress_invariant
    (inner : Nat → String → ImgGenResult)
    (pathExists : String → Bool) (innerV : Nat → String → Option String → String)
    (sid : String) (prompts imagePaths : List String) (videoPrompts : Option (List String))
    (storedI storedV : Option Checkpoint) (now : Nat)
    (hstoredI : ∀ c, storedI = some c → c.session_id ≠ none ∧ imageCkptInv prompts.length c)
    (hstoredV : ∀ c, storedV = some c → c.session_id ≠ none ∧ videoCkptInv imagePaths.length c) :
    (∀ s ∈ (generateImages inner sid prompts storedI now).saves, imageCkptInv prompts.length s)
    ∧ (∀ s ∈ (createVideosWithPrompts pathExists innerV sid imagePaths videoPrompts
        storedV now).saves, videoCkptInv imagePaths.length s) := by
  constructor
  · rcases storedI with _ | c
    · by_cases hp : prompts = []
      · subst hp
        simp [generateImages, imageCkptInv]
      · rw [generateImages_fresh_eq inner sid prompts now hp]
        refine runImageBatches_inv (imageItemTask inner) now prompts.length prompts 0 _
          (by simp) (by simp) (by simp) ⟨by simp, by simp⟩ ?_
        intro s hs
        simp only [List.mem_singleton] at hs
        rw [hs]
        exact ⟨by simp, by simp⟩
    · obtain ⟨hsid, hinv⟩ := hstoredI c rfl
      by_cases hdone : prompts.drop c.completed_images.length = []
      · rw [generateImages_resume_done_eq inner sid prompts now c hsid hdone]
        intro s hs
        simp at hs
      · rw [generateImages_resume_eq inner sid prompts now c hsid hdone]
        have hlt : c.completed_images.length < prompts.length := by
          by_contra hge
          exact hdone (List.drop_eq_nil_iff.mpr (by omega))
        refine runImageBatches_inv (imageItemTask inner) now prompts.length _ _ _
          (by simp [List.length_drop]; omega) hinv.1 hinv.2 hinv ?_
        intro s hs
        simp at hs
  · rcases storedV with _ | c
    · by_cases hp : imagePaths = []
      · subst hp
        simp [createVideosWithPrompts, videoCkptInv]
      · rw [createVideos_fresh_eq pathExists innerV sid imagePaths videoPrompts now hp]
        refine runVideoBatches_inv (videoItemTask pathExists innerV videoPrompts) now
          imagePaths.length (fun i p r h => videoItemTask_fst pathExists innerV videoPrompts i p r h)
          imagePaths 0 _ (by simp) (by simp) (by simp) ⟨by simp, by simp⟩ ?_
        intro s hs
        simp only [List.mem_singleton] at hs
        rw [hs]
        exact ⟨by simp, by simp⟩
    · obtain ⟨hsid, hinv⟩ := hstoredV c rfl
      by_cases hdone : imagePaths.drop c.completed_videos.length = []
      · rw [createVideos_resume_done_eq pathExists innerV sid imagePaths videoPrompts now c
          hsid hdone]
        intro s hs
        simp only [List.mem_singleton] at hs
        rw [hs]
        exact ⟨by simpa using hinv.1, by simpa using hinv.2⟩
      · rw [createVideos_resume_eq pathExists innerV sid imagePaths videoPrompts now c hsid hdone]
        have hlt : c.completed_videos.length < imagePaths.length := by
          by_contra hge
          exact hdone (List.drop_eq_nil_iff.mpr (by omega))
        refine runVideoBatches_inv (videoItemTask pathExists innerV videoPrompts) now
          imagePaths.length (fun i p r h => videoItemTask_fst pathExists innerV videoPrompts i p r h)
          _ _ _ (by simp [List.length_drop]; omega) hinv.1 hinv.2
          ⟨by simpa using hinv.1, by simpa using hinv.2⟩ ?_
        intro s hs
        simp only [List.mem_singleton] at hs
        rw [hs]
        exact ⟨by simpa using hinv.1, by simpa using hinv.2⟩

/-! ## Failing batches: what is and is not committed -/

theorem commitImages_append (now : Nat) :
    ∀ (rs1 rs2 : List ImgResult) (st : CommitState) (realStart : Nat),
    commitImages now (commitImages now st realStart rs1) (realStart + rs1.length) rs2
      = commitImages now st realStart (rs1 ++ rs2)
  | [], rs2, st, realStart => by simp [commitImages]
  | r :: rs1, rs2, st, realStart => by
    show commitImages now (commitImages now _ (realStart + 1) rs1) _ rs2 = _
    rw [show realStart + (r :: rs1).length = (realStart + 1) + rs1.length by simp; omega]
    rw [commitImages_append now rs1 rs2 _ (realStart + 1)]
    rfl

theorem commitVideos_append (now : Nat) :
    ∀ (rs1 rs2 : List (Nat × String)) (st : VCommitState),
    commitVideos now (commitVideos now st rs1) rs2 = commitVideos now st (rs1 ++ rs2)
  | [], rs2, st => by simp [commitVideos]
  | (i0, v0) :: rs1, rs2, st => by
    show commitVideos now (commitVideos now _ rs1) rs2 = _
    rw [commitVideos_append now rs1 rs2 _]
    rfl

/-- When the items of the first `B` batches succeed and some item of batch
`B` fails, the image batch loop raises, commits exactly the first `4*B`
items, and never starts an item beyond batch `B`. -/
theorem runImageBatches_fail (task : Nat → String → Except String ImgResult) (f : Nat → ImgResult)
    (now : Nat) :
    ∀ (B : Nat) (remaining : List String) (startIndex : Nat) (st : CommitState),
    (∀ i, i < remaining.length → i < 4 * B →
      task (startIndex + i) (remaining.getD i "") = .ok (f (startIndex + i))) →
    4 * B < remaining.length →
    (∃ k e, 4 * B ≤ k ∧ k < min (4 * (B + 1)) remaining.length
      ∧ task (startIndex + k) (remaining.getD k "") = .error e) →
    ∃ e2, runImageBatches task now startIndex remaining st
      = { result := .error e2,
          saves := (commitImages now st startIndex
            ((List.range' startIndex (4 * B)).map f)).saves,
          calls := List.range' startIndex (min (4 * (B + 1)) remaining.length) }
  | 0, remaining, startIndex, st, _, hBlt, hfail => by
    obtain ⟨k, e, _, hkmin, hkfail⟩ := hfail
    simp only [Nat.mul_zero, Nat.zero_add, Nat.mul_one] at hkmin ⊢
    match remaining, hBlt with
    | [p0], _ =>
      have hk0 : k < 1 := by simpa using hkmin
      obtain ⟨e2, hstep⟩ := imageBatchStep_error task now startIndex [p0] st k e
        (by simpa using hk0) hkfail
      refine ⟨e2, ?_⟩
      simp only [runImageBatches, hstep, commitImages]
      simp
    | [p0, p1], _ =>
      have hk0 : k < 2 := by simpa using hkmin
      obtain ⟨e2, hstep⟩ := imageBatchStep_error task now startIndex [p0, p1] st k e
        (by simpa using hk0) hkfail
      refine ⟨e2, ?_⟩
      simp only [runImageBatches, hstep, commitImages]
      simp
    | [p0, p1, p2], _ =>
      have hk0 : k < 3 := by simpa using hkmin
      obtain ⟨e2, hstep⟩ := imageBatchStep_error task now startIndex [p0, p1, p2] st k e
        (by simpa using hk0) hkfail
      refine ⟨e2, ?_⟩
      simp only [runImageBatches, hstep, commitImages]
      simp
    | p0 :: p1 :: p2 :: p3 :: rest, _ =>
      have hk0 : k < 4 := by
        simp only [List.length_cons] at hkmin
        omega
      have hkD : ([p0, p1, p2, p3] : List String).getD k ""
          = (p0 :: p1 :: p2 :: p3 :: rest).getD k "" := by
        interval_cases k <;> rfl
      obtain ⟨e2, hstep⟩ := imageBatchStep_error task now startIndex [p0, p1, p2, p3] st k e
        (by simpa using hk0) (by rw [hkD]; exact hkfail)
      refine ⟨e2, ?_⟩
      simp only [runImageBatches, hstep, commitImages]
      have hmin : min 4 (p0 :: p1 :: p2 :: p3 :: rest).length = 4 := by
        simp only [List.length_cons]
        omega
      rw [hmin]
      simp
  | (B + 1), remaining, startIndex, st, hsucc, hBlt, hfail => by
    match remaining, hBlt with
    | p0 :: p1 :: p2 :: p3 :: rest, hBlt =>
      obtain ⟨k, e, hk4, hkmin, hkfail⟩ := hfail
      have hrlen : 4 * (B + 1) < (p0 :: p1 :: p2 :: p3 :: rest).length := hBlt
      have hrest4 : 4 * B < rest.length := by
        simp only [List.length_cons] at hrlen
        omega
      have h4 : ∀ i, i < ([p0, p1, p2, p3] : List String).length →
          task (startIndex + i) ([p0, p1, p2, p3].getD i "") = .ok (f (startIndex + i)) := by
        intro i hi
        have hi4 : i < 4 := by simpa using hi
        have hlen : i < (p0 :: p1 :: p2 :: p3 :: rest).length := by simp; omega
        have := hsucc i hlen (by omega)
        interval_cases i <;> simpa using this
      have hgetDshift : ∀ j : Nat, (p0 :: p1 :: p2 :: p3 :: rest).getD (j + 4) ""
          = rest.getD j "" := by
        intro j
        simp [List.getD_cons_succ, show j + 4 = j + 3 + 1 by omega,
          show j + 3 = j + 2 + 1 by omega, show j + 2 = j + 1 + 1 by omega]
      have hsucc2 : ∀ i, i < rest.length → i < 4 * B →
          task (startIndex + 4 + i) (rest.getD i "") = .ok (f (startIndex + 4 + i)) := by
        intro i hi hiB
        have hlen : i + 4 < (p0 :: p1 :: p2 :: p3 :: rest).length := by simp; omega
        have := hsucc (i + 4) hlen (by omega)
        rw [hgetDshift i] at this
        rw [show startIndex + 4 + i = startIndex + (i + 4) by omega]
        exact this
      have hfail2 : ∃ k2 e2, 4 * B ≤ k2 ∧ k2 < min (4 * (B + 1)) rest.length
          ∧ task (startIndex + 4 + k2) (rest.getD k2 "") = .error e2 := by
        refine ⟨k - 4, e, by omega, ?_, ?_⟩
        · simp only [List.length_cons] at hkmin
          omega
        · have hk4' : 4 ≤ k := by omega
          have : k - 4 + 4 = k := by omega
          rw [show startIndex + 4 + (k - 4) = startIndex + k by omega, ← hgetDshift (k - 4), this]
          exact hkfail
      obtain ⟨e2, ih⟩ := runImageBatches_fail task f now B rest (startIndex + 4)
        (commitImages now st startIndex ((List.range' startIndex 4).map f)) hsucc2 hrest4 hfail2
      have hb := imageBatchStep_ok task f now startIndex [p0, p1, p2, p3] st h4
      refine ⟨e2, ?_⟩
      simp only [runImageBatches]
      rw [show ([p0, p1, p2, p3] : List String).length = 4 from rfl] at hb
      rw [hb]
      dsimp only
      rw [ih]
      have hcommits : commitImages now
            (commitImages now st startIndex ((List.range' startIndex 4).map f))
            (startIndex + 4) ((List.range' (startIndex + 4) (4 * B)).map f)
          = commitImages now st startIndex ((List.range' startIndex (4 * (B + 1))).map f) := by
        have h1 := commitImages_append now ((List.range' startIndex 4).map f)
          ((List.range' (startIndex + 4) (4 * B)).map f) st startIndex
        rw [show startIndex + ((List.range' startIndex 4).map f).length = startIndex + 4
          by simp] at h1
        rw [h1, ← List.map_append]
        have h2 := List.range'_append startIndex 4 (4 * B) 1
        simp only [Nat.one_mul] at h2
        rw [h2, show 4 * B + 4 = 4 * (B + 1) by omega]
      have hcalls : List.range' startIndex 4
            ++ List.range' (startIndex + 4) (min (4 * (B + 1)) rest.length)
          = List.range' startIndex (min (4 * (B + 1 + 1)) (p0 :: p1 :: p2 :: p3 :: rest).length) := by
        have h2 := List.range'_append startIndex 4 (min (4 * (B + 1)) rest.length) 1
        simp only [Nat.one_mul] at h2
        rw [h2]
        congr 1
        simp only [List.length_cons]
        omega
      rw [hcommits]
      simp only [RunOutput.mk.injEq]
      exact ⟨trivial, trivial, hcalls⟩

/-- When the items of the first `B` batches succeed and some item of batch
`B` fails, the video batch loop raises, commits exactly the first `2*B`
items, and never starts an item beyond batch `B`. -/
theorem runVideoBatches_fail (task : Nat → String → Except String (Nat × String))
    (gg : Nat → Nat × String) (now : Nat) :
    ∀ (B : Nat) (remaining : List String) (startIndex : Nat) (st : VCommitState),
    (∀ i, i < remaining.length → i < 2 * B →
      task (startIndex + i) (remaining.getD i "") = .ok (gg (startIndex + i))) →
    2 * B < remaining.length →
    (∃ k e, 2 * B ≤ k ∧ k < min (2 * (B + 1)) remaining.length
      ∧ task (startIndex + k) (remaining.getD k "") = .error e) →
    ∃ e2, runVideoBatches task now startIndex remaining st
      = { result := .error e2,
          saves := (commitVideos now st ((List.range' startIndex (2 * B)).map gg)).saves,
          calls := List.range' startIndex (min (2 * (B + 1)) remaining.length) }
  | 0, remaining, startIndex, st, _, hBlt, hfail => by
    obtain ⟨k, e, _, hkmin, hkfail⟩ := hfail
    simp only [Nat.mul_zero, Nat.zero_add, Nat.mul_one] at hkmin ⊢
    match remaining, hBlt with
    | [p0], _ =>
      have hk0 : k < 1 := by simpa using hkmin
      obtain ⟨e2, hstep⟩ := videoBatchStep_error task now startIndex [p0] st k e
        (by simpa using hk0) hkfail
      refine ⟨e2, ?_⟩
      simp only [runVideoBatches, hstep, commitVideos]
      simp
    | p0 :: p1 :: rest, _ =>
      have hk0 : k < 2 := by
        simp only [List.length_cons] at hkmin
        omega
      have hkD : ([p0, p1] : List String).getD k "" = (p0 :: p1 :: rest).getD k "" := by
        interval_cases k <;> rfl
      obtain ⟨e2, hstep⟩ := videoBatchStep_error task now startIndex [p0, p1] st k e
        (by simpa using hk0) (by rw [hkD]; exact hkfail)
      refine ⟨e2, ?_⟩
      simp only [runVideoBatches, hstep, commitVideos]
      have hmin : min 2 (p0 :: p1 :: rest).length = 2 := by
        simp only [List.length_cons]
        omega
      rw [hmin]
      simp
  | (B + 1), remaining, startIndex, st, hsucc, hBlt, hfail => by
    match remaining, hBlt with
    | p0 :: p1 :: rest, hBlt =>
      obtain ⟨k, e, hk2, hkmin, hkfail⟩ := hfail
      have hrest2 : 2 * B < rest.length := by
        simp only [List.length_cons] at hBlt
        omega
      have h2 : ∀ i, i < ([p0, p1] : List String).length →
          task (startIndex + i) ([p0, p1].getD i "") = .ok (gg (startIndex + i)) := by
        intro i hi
        have hi2 : i < 2 := by simpa using hi
        have hlen : i < (p0 :: p1 :: rest).length := by simp; omega
        have := hsucc i hlen (by omega)
        interval_cases i <;> simpa using this
      have hgetDshift : ∀ j : Nat, (p0 :: p1 :: rest).getD (j + 2) "" = rest.getD j "" := by
        intro j
        simp [List.getD_cons_succ, show j + 2 = j + 1 + 1 by omega]
      have hsucc2 : ∀ i, i < rest.length → i < 2 * B →
          task (startIndex + 2 + i) (rest.getD i "") = .ok (gg (startIndex + 2 + i)) := by
        intro i hi hiB
        have hlen : i + 2 < (p0 :: p1 :: rest).length := by simp; omega
        have := hsucc (i + 2) hlen (by omega)
        rw [hgetDshift i] at this
        rw [show startIndex + 2 + i = startIndex + (i + 2) by omega]
        exact this
      have hfail2 : ∃ k2 e2, 2 * B ≤ k2 ∧ k2 < min (2 * (B + 1)) rest.length
          ∧ task (startIndex + 2 + k2) (rest.getD k2 "") = .error e2 := by
        refine ⟨k - 2, e, by omega, ?_, ?_⟩
        · simp only [List.length_cons] at hkmin
          omega
        · have : k - 2 + 2 = k := by omega
          rw [show startIndex + 2 + (k - 2) = startIndex + k by omega, ← hgetDshift (k - 2), this]
          exact hkfail
      obtain ⟨e2, ih⟩ := runVideoBatches_fail task gg now B rest (startIndex + 2)
        (commitVideos now st ((List.range' startIndex 2).map gg)) hsucc2 hrest2 hfail2
      have hb := videoBatchStep_ok task gg now startIndex [p0, p1] st h2
      refine ⟨e2, ?_⟩
      simp only [runVideoBatches]
      rw [show ([p0, p1] : List String).length = 2 from rfl] at hb
      rw [hb]
      dsimp only
      rw [ih]
      have hcommits : commitVideos now (commitVideos now st ((List.range' startIndex 2).map gg))
            ((List.range' (startIndex + 2) (2 * B)).map gg)
          = commitVideos now st ((List.range' startIndex (2 * (B + 1))).map gg) := by
        rw [commitVideos_append now ((List.range' startIndex 2).map gg)
          ((List.range' (startIndex + 2) (2 * B)).map gg) st, ← List.map_append]
        have h2r := List.range'_append startIndex 2 (2 * B) 1
        simp only [Nat.one_mul] at h2r
        rw [h2r, show 2 * B + 2 = 2 * (B + 1) by omega]
      have hcalls : List.range' startIndex 2
            ++ List.range' (startIndex + 2) (min (2 * (B + 1)) rest.length)
          = List.range' startIndex (min (2 * (B + 1 + 1)) (p0 :: p1 :: rest).length) := by
        have h2r := List.range'_append startIndex 2 (min (2 * (B + 1)) rest.length) 1
        simp only [Nat.one_mul] at h2r
        rw [h2r]
        congr 1
        simp only [List.length_cons]
        omega
      rw [hcommits]
      simp only [RunOutput.mk.injEq]
      exact ⟨trivial, trivial, hcalls⟩

/-- C4 (amended): when an item of a batch fails, the scheduler raises
without recording any item of that batch in the checkpoint — including
successful siblings, whose results are discarded; the checkpoints written
hold exactly the items of the batches before the failing one, and no item
past the failing batch is ever started. -/
theorem sibling_results_not_recorded
    (inner : Nat → String → ImgGenResult) (f : Nat → ImgResult)
    (pathExists : String → Bool) (innerV : Nat → String → Option String → String)
    (g : Nat → String) (sid : String) (prompts imagePaths : List String)
    (videoPrompts : Option (List String)) (now : Nat)
    (B k Bv kv : Nat) (e ev : String)
    (hkB : 4 * B ≤ k) (hkB2 : k < min (4 * (B + 1)) prompts.length)
    (hbefore : ∀ i, i < prompts.length → i < 4 * B →
      imageItemTask inner i (prompts.getD i "") = .ok (f i))
    (hfailk : imageItemTask inner k (prompts.getD k "") = .error e)
    (hsib : ∃ s, 4 * B ≤ s ∧ s < min (4 * (B + 1)) prompts.length ∧ s ≠ k
      ∧ ∃ r, imageItemTask inner s (prompts.getD s "") = .ok r)
    (hkBv : 2 * Bv ≤ kv) (hkBv2 : kv < min (2 * (Bv + 1)) imagePaths.length)
    (hbeforev : ∀ i, i < imagePaths.length → i < 2 * Bv →
      videoItemTask pathExists innerV videoPrompts i (imagePaths.getD i "") = .ok (i, g i))
    (hfailkv : videoItemTask pathExists innerV videoPrompts kv (imagePaths.getD kv "") = .error ev)
    (hsibv : ∃ s, 2 * Bv ≤ s ∧ s < min (2 * (Bv + 1)) imagePaths.length ∧ s ≠ kv
      ∧ ∃ r, videoItemTask pathExists innerV videoPrompts s (imagePaths.getD s "") = .ok r) :
    (∃ e2, (generateImages inner sid prompts none now).result = .error e2)
    ∧ (generateImages inner sid prompts none now).saves.map (fun c => c.completed_images)
        = (List.range (4 * B + 1)).map List.range
    ∧ (∀ cp ∈ (generateImages inner sid prompts none now).saves,
        ∀ j ∈ cp.completed_images, j < 4 * B)
    ∧ (generateImages inner sid prompts none now).calls
        = List.range (min (4 * (B + 1)) prompts.length)
    ∧ (∃ e2, (createVideosWithPrompts pathExists innerV sid imagePaths videoPrompts
        none now).result = .error e2)
    ∧ (createVideosWithPrompts pathExists innerV sid imagePaths videoPrompts none now).saves.map
        (fun c => c.completed_videos) = (List.range (2 * Bv + 1)).map List.range
    ∧ (∀ cp ∈ (createVideosWithPrompts pathExists innerV sid imagePaths videoPrompts
        none now).saves, ∀ j ∈ cp.completed_videos, j < 2 * Bv)
    ∧ (createVideosWithPrompts pathExists innerV sid imagePaths videoPrompts none now).calls
        = List.range (min (2 * (Bv + 1)) imagePaths.length) := by
  have hkN : k < prompts.length := lt_of_lt_of_le hkB2 (min_le_right _ _)
  have hBN : 4 * B < prompts.length := by omega
  have hpne : prompts ≠ [] := by
    intro hp
    rw [hp] at hkN
    simp at hkN
  have hkvN : kv < imagePaths.length := lt_of_lt_of_le hkBv2 (min_le_right _ _)
  have hBvN : 2 * Bv < imagePaths.length := by omega
  have hvne : imagePaths ≠ [] := by
    intro hp
    rw [hp] at hkvN
    simp at hkvN
  rw [generateImages_fresh_eq inner sid prompts now hpne,
    createVideos_fresh_eq pathExists innerV sid imagePaths videoPrompts now hvne]
  obtain ⟨e2, hout⟩ := runImageBatches_fail (imageItemTask inner) f now B prompts 0 _
    (by intro i hi hiB; simpa using hbefore i hi hiB) hBN
    ⟨k, e, hkB, hkB2, by simpa using hfailk⟩
  obtain ⟨ev2, houtv⟩ := runVideoBatches_fail (videoItemTask pathExists innerV videoPrompts)
    (fun i => (i, g i)) now Bv imagePaths 0 _
    (by intro i hi hiB; simpa using hbeforev i hi hiB) hBvN
    ⟨kv, ev, hkBv, hkBv2, by simpa using hfailkv⟩
  rw [hout, houtv]
  have hsavesImg : (commitImages now
        { cp := { session_id := some sid, total_prompts := prompts.length,
                  prompts := some prompts, completed_images := [], generated_images := [],
                  start_time := now, phase := "image_generation",
                  session_image_dir := "downloads/minimax_images/" ++ sid,
                  session_video_dir := "downloads/videos/" ++ sid },
          completed := [], generated := [],
          saves := [{ session_id := some sid, total_prompts := prompts.length,
                      prompts := some prompts, completed_images := [],
                      generated_images := [], start_time := now,
                      phase := "image_generation",
                      session_image_dir := "downloads/minimax_images/" ++ sid,
                      session_video_dir := "downloads/videos/" ++ sid }] }
        0 ((List.range' 0 (4 * B)).map f)).saves.map (fun c => c.completed_images)
      = (List.range (4 * B + 1)).map List.range := by
    rw [(commitImages_spec now _ _ _).2.2]
    simp only [List.map_append, List.map_map, List.length_map, List.length_range']
    rw [map_range_succ_cons List.range (4 * B)]
    simp only [List.range_zero, List.map_cons, List.map_nil, List.singleton_append,
      List.cons.injEq, Function.comp]
    refine ⟨trivial, List.map_congr_left fun j hj => ?_⟩
    simp [List.range_eq_range']
  have hsavesVid : (commitVideos now
        { cp := { session_id := some sid, total_images := imagePaths.length,
                  images := imagePaths, prompts := videoPrompts, completed_videos := [],
                  video_paths := [], start_time := now, phase := "video_generation",
                  session_image_dir := "downloads/minimax_images/" ++ sid,
                  session_video_dir := "downloads/videos/" ++ sid },
          completed := [], video_paths := [],
          saves := [{ session_id := some sid, total_images := imagePaths.length,
                      images := imagePaths, prompts := videoPrompts,
                      completed_videos := [], video_paths := [], start_time := now,
                      phase := "video_generation",
                      session_image_dir := "downloads/minimax_images/" ++ sid,
                      session_video_dir := "downloads/videos/" ++ sid }] }
        ((List.range' 0 (2 * Bv)).map (fun i => (i, g i)))).saves.map
          (fun c => c.completed_videos)
      = (List.range (2 * Bv + 1)).map List.range := by
    rw [(commitVideos_spec now _ _).2.2]
    simp only [List.map_append, List.map_map, List.length_map, List.length_range']
    rw [map_range_succ_cons List.range (2 * Bv)]
    simp only [List.range_zero, List.map_cons, List.map_nil, List.singleton_append,
      List.cons.injEq, Function.comp]
    refine ⟨trivial, List.map_congr_left fun j hj => ?_⟩
    have htake : ((List.range' 0 (2 * Bv)).map (fun i => (i, g i))).take (j + 1)
        = (List.range' 0 (j + 1)).map (fun i => (i, g i)) := by
      have hmin : min (j + 1) (2 * Bv) = j + 1 := by
        simp only [List.mem_range] at hj
        omega
      rw [← List.map_take, ← List.range_eq_range', List.take_range, ← List.range_eq_range', hmin]
    simp only [Function.comp_apply, htake, List.map_map]
    rw [show (Prod.fst ∘ fun i : Nat => (i, g i)) = id from rfl, List.map_id,
      List.range_eq_range', List.nil_append]
  refine ⟨⟨e2, rfl⟩, hsavesImg, ?_, by simp [List.range_eq_range'], ⟨ev2, rfl⟩, hsavesVid, ?_,
    by simp [List.range_eq_range']⟩
  · intro cp hcp j hj
    have hmem : cp.completed_images ∈ (List.range (4 * B + 1)).map List.range := by
      rw [← hsavesImg]
      exact List.mem_map_of_mem _ hcp
    obtain ⟨m, hm, hmeq⟩ := List.mem_map.mp hmem
    rw [← hmeq] at hj
    simp only [List.mem_range] at hm hj
    omega
  · intro cp hcp j hj
    have hmem : cp.completed_videos ∈ (List.range (2 * Bv + 1)).map List.range := by
      rw [← hsavesVid]
      exact List.mem_map_of_mem _ hcp
    obtain ⟨m, hm, hmeq⟩ := List.mem_map.mp hmem
    rw [← hmeq] at hj
    simp only [List.mem_range] at hm hj
    omega

/-! ## C1: the failure point is never recorded in `failed_at` -/

/-- C1 (code behaviour at a failing input): in a fresh 5-prompt image run
whose item at index 1 raises, the run re-raises the item's error and never
starts the second batch (index 4 is never called), but the only checkpoint
ever saved is the initial one: `failed_at` stays `none` and nothing is
committed, because `await asyncio.gather(*tasks)` sits outside the `try`
block, making the `except` handler that writes `failed_at` unreachable.
The video scheduler behaves identically. -/
theorem failed_at_never_recorded :
    (let out := generateImages
      (fun i _ => if i = 1 then ImgGenResult.exn "boom" else ImgGenResult.path "img")
      "s" ["p0", "p1", "p2", "p3", "p4"] none 0
     out.result = .error "Error generating image 2: boom"
     ∧ out.saves.map (fun c => c.failed_at) = [none]
     ∧ out.saves.map (fun c => c.completed_images) = [[]]
     ∧ out.calls = [0, 1, 2, 3])
    ∧ (let outv := createVideosWithPrompts (fun _ => true)
        (fun i _ _ => if i = 0 then "" else "vid") "s" ["i0", "i1", "i2"] none none 0
       outv.result = .error "Error creating video 1: Failed to create video 1 after 0s"
       ∧ outv.saves.map (fun c => c.failed_at) = [none]
       ∧ outv.saves.map (fun c => c.completed_videos) = [[]]
       ∧ outv.calls = [0, 1]) := by decide

/-- C4 counterexample: in a fresh single-batch run where item 0 succeeds
and item 1 fails, item 0's result is NOT recorded in any checkpoint before
the scheduler raises — the claim that successful siblings of a failing
batch are still recorded is false on this code. -/
theorem sibling_preservation_counterexample :
    (let inner : Nat → String → ImgGenResult :=
      fun i _ => if i = 1 then ImgGenResult.exn "boom" else ImgGenResult.path "img0"
     let out := generateImages inner "sx" ["q0", "q1"] none 0
     imageItemTask inner 0 "q0" = .ok (.path "img0")
     ∧ out.result = .error "Error generating image 2: boom"
     ∧ out.saves.map (fun c => c.completed_images) = [[]]
     ∧ out.saves.map (fun c => c.generated_images) = [[]])
    ∧ (let innerV : Nat → String → Option String → String :=
        fun i _ _ => if i = 1 then "" else "v0"
       let outv := createVideosWithPrompts (fun _ => true) innerV "sx" ["j0", "j1"] none none 0
       videoItemTask (fun _ => true) innerV none 0 "j0" = .ok (0, "v0")
       ∧ outv.result = .error "Error creating video 2: Failed to create video 2 after 0s"
       ∧ outv.saves.map (fun c => c.completed_videos) = [[]]
       ∧ outv.saves.map (fun c => c.video_paths) = [[]]) := by decide

/-! ## Concrete witnesses -/

theorem resumption_correctness_witness :
    (generateImages (fun i _ => ImgGenResult.path ("img" ++ toString i)) "s" ["a", "b", "c"]
        (some { session_id := some "s", completed_images := [0, 1],
                generated_images := [ImgResult.path "img0", ImgResult.path "img1"] }) 1).result
      = (generateImages (fun i _ => ImgGenResult.path ("img" ++ toString i)) "s" ["a", "b", "c"]
          none 0).result :=
  (resumption_correctness
    (fun i _ => ImgGenResult.path ("img" ++ toString i))
    (fun i => ImgResult.path ("img" ++ toString i))
    (fun _ => true) (fun i _ _ => "v" ++ toString i) (fun i => "v" ++ toString i)
    "s" ["a", "b", "c"] ["x", "y"] none 0 1
    { session_id := some "s", completed_images := [0, 1],
      generated_images := [ImgResult.path "img0", ImgResult.path "img1"] }
    { session_id := some "s", completed_videos := [0], video_paths := ["v0"] }
    (by decide) (by decide) (by decide) (by decide)
    (by decide) (by decide) (by decide) (by decide)).2.1

theorem index_fidelity_witness :
    gatherSched [Except.ok (ImgResult.path "A"), Except.ok (ImgResult.path "B")] [1, 0]
      = .ok [ImgResult.path "A", ImgResult.path "B"] :=
  (index_fidelity_out_of_order
    [Except.ok (ImgResult.path "A"), Except.ok (ImgResult.path "B")]
    (fun i => if i = 0 then ImgResult.path "A" else ImgResult.path "B") [1, 0]
    (by decide) (by decide)
    (fun i _ => ImgGenResult.path ("img" ++ toString i))
    (fun i => ImgResult.path ("img" ++ toString i))
    (fun _ => true) (fun i _ _ => "v" ++ toString i) (fun i => "v" ++ toString i)
    "s" ["a", "b"] ["x", "y"] none 0
    (by decide) (by decide)).1

theorem sibling_results_not_recorded_witness :
    (generateImages
      (fun i _ => if i = 1 then ImgGenResult.exn "boom" else ImgGenResult.path "img")
      "s" ["p0", "p1", "p2", "p3", "p4"] none 0).saves.map (fun c => c.completed_images)
      = [[]] :=
  (sibling_results_not_recorded
    (fun i _ => if i = 1 then ImgGenResult.exn "boom" else ImgGenResult.path "img")
    (fun _ => ImgResult.path "img")
    (fun _ => true) (fun i _ _ => if i = 1 then "" else "vid")
    (fun i => "vid") "s" ["p0", "p1", "p2", "p3", "p4"] ["i0", "i1", "i2"] none 0
    0 1 0 1 "Error generating image 2: boom"
    "Error creating video 2: Failed to create video 2 after 0s"
    (by decide) (by decide) (by decide) (by decide)
    ⟨0, by decide, by decide, by decide, ImgResult.path "img", by decide⟩
    (by decide) (by decide) (by decide) (by decide)
    ⟨0, by decide, by decide, by decide, (0, "vid"), by decide⟩).2.1

theorem checkpoint_progress_invariant_witness :
    (∀ s ∈ (generateImages (fun i _ => ImgGenResult.path ("img" ++ toString i)) "s"
        ["a", "b", "c"]
        (some { session_id := some "s", completed_images := [0, 1],
                generated_images := [ImgResult.path "img0", ImgResult.path "img1"] }) 0).saves,
      imageCkptInv 3 s)
    ∧ (∀ s ∈ (createVideosWithPrompts (fun _ => true) (fun i _ _ => "v" ++ toString i) "s"
        ["x", "y"] none none 0).saves, videoCkptInv 2 s) :=
  checkpoint_progress_invariant
    (fun i _ => ImgGenResult.path ("img" ++ toString i))
    (fun _ => true) (fun i _ _ => "v" ++ toString i)
    "s" ["a", "b", "c"] ["x", "y"] none
    (some { session_id := some "s", completed_images := [0, 1],
            generated_images := [ImgResult.path "img0", ImgResult.path "img1"] })
    none 0
    (by intro c hc; obtain rfl := Option.some.inj hc; decide)
    (by intro c hc; cases hc)

/-!
## C9: the video stage rejects mismatched input lists
(`generate_videos_from_images_and_prompts`, minimax_service.py 457-594, and
`create_videos_with_optimized_prompts`, minimax_service_backup.py 1331-1438)
-/

/-- The S2V-01 submission payload built by
`generate_videos_from_images_and_prompts`. -/
structure VideoSubmitRequest where
  model : String
  prompt : List Char
  first_frame_image : String
  prompt_optimizer : Bool
  fps : Nat
deriving DecidableEq, Repr

/-- Network outcome of one task submission. -/
inductive SubmitOutcome where
  | ok (task_id : String)
  | httpFail (code : Nat)
  | noTaskId
  | exn (e : String)
deriving DecidableEq, Repr

/-- Embedding of `generate_videos_from_images_and_prompts`: returns the
result list and the trace of payloads constructed for transmission (empty
when no submission loop runs). `fileB64` models reading+base64-encoding the
image file, `submit` the POST response, `pollDownload` the
poll-and-download tail for a submitted task id. -/
def generateVideosFromImagesAndPrompts
    (fileB64 : String → String)
    (submit : Nat → VideoSubmitRequest → SubmitOutcome)
    (pollDownload : String → Option String)
    (image_paths : List String) (video_prompts : List (List Char)) :
    List String × List VideoSubmitRequest :=
  if image_paths.length ≠ video_prompts.length then ([], [])
  else
    let submissions := (image_paths.zip video_prompts).enum.map fun iv =>
      let payload : VideoSubmitRequest :=
        { model := "S2V-01"
          prompt := enhancePromptForCharacterConsistency iv.2.2
          first_frame_image := "data:image/jpeg;base64," ++ fileB64 iv.2.1
          prompt_optimizer := true
          fps := 30 }
      (iv.1, iv.2.1, payload)
    let requests := submissions.map fun s => s.2.2
    let task_ids := submissions.filterMap fun s =>
      match submit s.1 s.2.2 with
      | .ok tid => some (tid, s.1 + 1, s.2.1)
      | _ => none
    if task_ids.isEmpty then ([], requests)
    else (task_ids.filterMap fun t => pollDownload t.1, requests)

/-- The `video-01` payload built by `create_videos_with_optimized_prompts`. -/
structure ClassicVideoRequest where
  model : String
  prompt : List Char
  first_frame_image : String
deriving DecidableEq, Repr

/-- `'image/png' if splitext(path)[1].lower() == '.png' else 'image/jpeg'`. -/
def mimeTypeFor (path : String) : String :=
  if (path.map Char.toLower).endsWith ".png" then "image/png" else "image/jpeg"

/-- Per-item network outcome for the classic workflow. -/
inductive ClassicItemOutcome where
  | http (code : Nat) (task_id : Option String)
  | exn (e : String)
deriving DecidableEq, Repr

/-- Embedding of `create_videos_with_optimized_prompts`: one result entry
per pair (the downloaded path or `""` on any per-item failure), plus the
trace of payloads constructed. `resolveDownload` compresses
`_wait_for_video_task` + `_get_file_url` + `_download_single_video`. -/
def createVideosWithOptimizedPrompts
    (fileB64 : String → String)
    (submit : Nat → ClassicVideoRequest → ClassicItemOutcome)
    (resolveDownload : String → Option String)
    (image_paths : List String) (optimized_prompts : List (List Char)) :
    List String × List ClassicVideoRequest :=
  if image_paths.length ≠ optimized_prompts.length then ([], [])
  else
    let items := (image_paths.zip optimized_prompts).enum
    let requests := items.map fun it =>
      ({ model := "video-01"
         prompt := it.2.2
         first_frame_image := "data:" ++ mimeTypeFor it.2.1 ++ ";base64," ++ fileB64 it.2.1 }
        : ClassicVideoRequest)
    let video_paths := items.map fun it =>
      let req : ClassicVideoRequest :=
        { model := "video-01"
          prompt := it.2.2
          first_frame_image := "data:" ++ mimeTypeFor it.2.1 ++ ";base64," ++ fileB64 it.2.1 }
      match submit it.1 req with
      | .http 200 (some tid) =>
        match resolveDownload tid with
        | some p => p
        | none => ""
      | _ => ""
    (video_paths, requests)

/-- C9: invoking either video-stage entry point with image and prompt lists
of different lengths returns an empty list immediately, constructs no
submission payload and produces no artifact. -/
theorem mismatched_lengths_return_empty
    (fileB64 : String → String) (submit : Nat → VideoSubmitRequest → SubmitOutcome)
    (pollDownload : String → Option String)
    (fileB64c : String → String) (submitc : Nat → ClassicVideoRequest → ClassicItemOutcome)
    (resolveDownload : String → Option String)
    (image_paths : List String) (video_prompts : List (List Char))
    (image_pathsc : List String) (optimized_prompts : List (List Char))
    (hmm : image_paths.length ≠ video_prompts.length)
    (hmmc : image_pathsc.length ≠ optimized_prompts.length) :
    generateVideosFromImagesAndPrompts fileB64 submit pollDownload image_paths video_prompts
      = ([], [])
    ∧ createVideosWithOptimizedPrompts fileB64c submitc resolveDownload image_pathsc
        optimized_prompts = ([], []) := by
  constructor
  · rw [generateVideosFromImagesAndPrompts, if_pos hmm]
  · rw [createVideosWithOptimizedPrompts, if_pos hmmc]

theorem mismatched_lengths_return_empty_witness :
    generateVideosFromImagesAndPrompts (fun _ => "AA") (fun _ _ => .noTaskId) (fun _ => none)
      ["a.jpg", "b.jpg"] ["walk".toList] = ([], [])
    ∧ createVideosWithOptimizedPrompts (fun _ => "AA") (fun _ _ => .exn "e") (fun _ => none)
        ["a.jpg"] ["walk".toList, "run".toList] = ([], []) :=
  mismatched_lengths_return_empty (fun _ => "AA") (fun _ _ => .noTaskId) (fun _ => none)
    (fun _ => "AA") (fun _ _ => .exn "e") (fun _ => none)
    ["a.jpg", "b.jpg"] ["walk".toList] ["a.jpg"] ["walk".toList, "run".toList]
    (by decide) (by decide)

/-!
## C8: poll-loop terminal behaviour
(`_wait_for_video_task`, minimax_service_backup.py 1035-1166, and
`_poll_task_status`, minimax_service.py 26-75)

Time model: `_wait_for_video_task` sleeps 2 seconds per iteration, so the
elapsed time at check `k` is `2*k` seconds; `_poll_task_status` sleeps 10
seconds per non-terminal iteration, so its `while time-start < max_wait`
guard at check `k` reads `10*k < max_wait`.
-/

structure BaseResp where
  status_code : Int
  status_msg : String
deriving DecidableEq, Repr

structure VideoField where
  file_id : Option String := none
  url : Option String := none
deriving DecidableEq, Repr

structure VideoData where
  status : Option String := none
  file_id : Option String := none
  video : Option VideoField := none
  url : Option String := none
deriving DecidableEq, Repr

/-- The JSON body of one `query/video_generation` response, one optional
field per key `_wait_for_video_task` reads. -/
structure VideoQueryBody where
  base_resp : Option BaseResp := none
  status : Option String := none
  data : Option VideoData := none
  task_status : Option String := none
  file_id : Option String := none
  message : Option String := none
  error_msg : Option String := none
deriving DecidableEq, Repr

/-- One observation of the status endpoint. -/
inductive QueryResp where
  | ok (body : VideoQueryBody)
  | httpErr (code : Nat)
  | netErr (e : String)
deriving DecidableEq, Repr

/-- Status extraction: `result["status"]`, else `result["data"]["status"]`,
else `result["task_status"]` (lines 1072-1081). -/
def videoStatusOf (body : VideoQueryBody) : Option String :=
  match body.status with
  | some s => some s
  | none =>
    match body.data with
    | some d =>
      match d.status with
      | some s => some s
      | none => body.task_status
    | none => body.task_status

/-- `file_id` extraction on success (lines 1096-1111). -/
def videoFileOf (body : VideoQueryBody) : Option String :=
  match body.file_id with
  | some fid => some fid
  | none =>
    match body.data with
    | some d =>
      match d.file_id with
      | some fid => some fid
      | none =>
        match d.video with
        | some v =>
          (match v.file_id with
           | some fid => some fid
           | none => v.url)
        | none => d.url
    | none => none

def videoSuccessStatuses : List String :=
  ["finished", "success", "completed", "done", "FINISHED", "SUCCESS", "COMPLETED", "Success"]

def videoFailedStatuses : List String :=
  ["failed", "error", "FAILED", "ERROR", "Fail"]

/-- Python `a or b` on an optional string (`None` and `""` are falsy). -/
def pyOr (o : Option String) (d : String) : String :=
  match o with
  | some s => if s = "" then d else s
  | none => d

/-- `result.get("message") or result.get("error_msg") or "Unknown error"`. -/
def videoErrMsg (body : VideoQueryBody) : String :=
  pyOr body.message (pyOr body.error_msg "Unknown error")

/-- What one loop iteration of `_wait_for_video_task` does with a response. -/
inductive PollStep where
  | next
  | ret (file_id : String)
  | raise (e : String)
deriving DecidableEq, Repr

/-- One iteration body of `_wait_for_video_task` at elapsed time `elapsed`:
non-200 responses and network errors are logged and retried; a non-zero
`base_resp` code raises; a success status returns the file id (or raises if
none found); a failed status raises immediately; anything else polls on. -/
def waitStep (resp : QueryResp) (elapsed : Nat) : PollStep :=
  match resp with
  | .httpErr _ => .next
  | .netErr _ => .next
  | .ok body =>
    match body.base_resp with
    | some br =>
      if br.status_code ≠ 0 then
        .raise ("Query error: " ++ toString br.status_code ++ " - " ++ br.status_msg)
      else waitStatusStep body elapsed
    | none => waitStatusStep body elapsed
where
  waitStatusStep (body : VideoQueryBody) (elapsed : Nat) : PollStep :=
    match videoStatusOf body with
    | some status =>
      if status ∈ videoSuccessStatuses then
        match videoFileOf body with
        | some fid => .ret fid
        | none => .raise "Video generated but no file_id or URL found in response"
      else if status ∈ videoFailedStatuses then
        .raise ("Video generation failed after " ++ toString elapsed ++ "s: " ++ videoErrMsg body)
      else .next
    | none => .next

/-- The polling loop of `_wait_for_video_task` (`max_attempts = 1200`,
2-second interval), also returning the number of status checks made. -/
def waitForVideoTaskAux (responses : Nat → QueryResp) : Nat → Nat → Except String String × Nat
  | 0, attempt =>
    (.error ("Video generation timeout after " ++ toString (2 * attempt / 60) ++ "m "
      ++ toString (2 * attempt % 60) ++ "s"), attempt)
  | fuel + 1, attempt =>
    match waitStep (responses attempt) (2 * attempt) with
    | .ret fid => (.ok fid, attempt + 1)
    | .raise e => (.error e, attempt + 1)
    | .next => waitForVideoTaskAux responses fuel (attempt + 1)

/-- `_wait_for_video_task`: returns the file id or raises. -/
def waitForVideoTask (responses : Nat → QueryResp) : Except String String :=
  (waitForVideoTaskAux responses 1200 0).1

/-- `result.get("status", "")` plus the fields the caller reads. -/
structure TaskResult where
  status : String := ""
  file_id : Option String := none
deriving DecidableEq, Repr

/-- One observation of the status endpoint for `_poll_task_status`. -/
inductive PollResp where
  | httpOk (result : TaskResult)
  | httpErr (code : Nat)
  | exn (e : String)
deriving DecidableEq, Repr

/-- The loop of `_poll_task_status`: `Success` returns the result dict,
`Failed` returns `None` at once, anything else (unknown status, non-200,
exception) sleeps 10 s and retries; when `max_wait_time` elapses it returns
`None`. Also returns the number of status checks made. The fuel argument
only bounds the recursion; `maxWait` iterations always suffice. -/
def pollTaskStatusAux (responses : Nat → PollResp) (maxWait : Nat) :
    Nat → Nat → Option TaskResult × Nat
  | fuel, iter =>
    if 10 * iter < maxWait then
      match fuel with
      | 0 => (none, iter)
      | fuel + 1 =>
        match responses iter with
        | .httpOk result =>
          if result.status = "Success" then (some result, iter + 1)
          else if result.status = "Failed" then (none, iter + 1)
          else pollTaskStatusAux responses maxWait fuel (iter + 1)
        | .httpErr _ => pollTaskStatusAux responses maxWait fuel (iter + 1)
        | .exn _ => pollTaskStatusAux responses maxWait fuel (iter + 1)
    else (none, iter)

/-- `_poll_task_status(task_id, max_wait_time)`. -/
def pollTaskStatus (responses : Nat → PollResp) (maxWait : Nat) : Option TaskResult :=
  (pollTaskStatusAux responses maxWait maxWait 0).1

/-- A response on which `_poll_task_status` keeps polling. -/
def pollContinues (resp : PollResp) : Prop :=
  match resp with
  | .httpOk r => r.status ≠ "Success" ∧ r.status ≠ "Failed"
  | .httpErr _ => True
  | .exn _ => True

/-- A query-response body carrying a terminal failed status, for concrete runs. -/
def failedBody : VideoQueryBody := { status := some "failed", message := some "boom" }

/-- Skipping `k` continuing iterations of the `_wait_for_video_task` loop. -/
theorem waitForVideoTaskAux_skip (responses : Nat → QueryResp) :
    ∀ (k fuel attempt : Nat),
    (∀ j, attempt ≤ j → j < attempt + k → waitStep (responses j) (2 * j) = .next) →
    waitForVideoTaskAux responses (fuel + k) attempt
      = waitForVideoTaskAux responses fuel (attempt + k)
  | 0, fuel, attempt, _ => rfl
  | k + 1, fuel, attempt, hcont => by
    show waitForVideoTaskAux responses (fuel + k + 1) attempt = _
    rw [waitForVideoTaskAux, hcont attempt (le_refl _) (by omega)]
    rw [waitForVideoTaskAux_skip responses k fuel (attempt + 1)
      (fun j h1 h2 => hcont j (by omega) (by omega))]
    show waitForVideoTaskAux responses fuel (attempt + 1 + k)
      = waitForVideoTaskAux responses fuel (attempt + (k + 1))
    congr 1
    omega

/-- With no terminal response, `_poll_task_status` returns `None`. -/
theorem pollTaskStatusAux_none (responses : Nat → PollResp) (maxWait : Nat)
    (hcont : ∀ j, pollContinues (responses j)) :
    ∀ (fuel iter : Nat), (pollTaskStatusAux responses maxWait fuel iter).1 = none
  | 0, iter => by
    rw [pollTaskStatusAux]
    split <;> rfl
  | fuel + 1, iter => by
    rw [pollTaskStatusAux]
    split
    · rcases hr : responses iter with r | c | e
      · have hstep := hcont iter
        rw [hr] at hstep
        simp only [pollContinues] at hstep
        dsimp only
        rw [if_neg hstep.1, if_neg hstep.2]
        exact pollTaskStatusAux_none responses maxWait hcont fuel (iter + 1)
      · exact pollTaskStatusAux_none responses maxWait hcont fuel (iter + 1)
      · exact pollTaskStatusAux_none responses maxWait hcont fuel (iter + 1)
    · rfl

/-- A failed status makes one `_wait_for_video_task` iteration raise the
failure error carrying the elapsed time and the response message. -/
theorem waitStep_failed (body : VideoQueryBody) (elapsed : Nat) (st : String)
    (hbr : ∀ br, body.base_resp = some br → br.status_code = 0)
    (hst : videoStatusOf body = some st)
    (hns : st ∉ videoSuccessStatuses) (hf : st ∈ videoFailedStatuses) :
    waitStep (.ok body) elapsed
      = .raise ("Video generation failed after " ++ toString elapsed ++ "s: "
          ++ videoErrMsg body) := by
  have hstat : waitStep.waitStatusStep body elapsed
      = .raise ("Video generation failed after " ++ toString elapsed ++ "s: "
          ++ videoErrMsg body) := by
    rw [waitStep.waitStatusStep, hst]
    dsimp only
    rw [if_neg hns, if_pos hf]
  rw [waitStep]
  rcases hb : body.base_resp with _ | br
  · exact hstat
  · dsimp only
    rw [if_neg (by simpa using hbr br hb)]
    exact hstat

/-- The failure message and the timeout message of `_wait_for_video_task`
never coincide, whatever the elapsed times and error details. -/
theorem videoMsg_ne_timeoutMsg (el m tmo : String) :
    "Video generation failed after " ++ el ++ "s: " ++ m
      ≠ "Video generation timeout after " ++ tmo := by
  intro h
  have h2 := congrArg (fun s => s.data.take 18) h
  simp only [String.data_append, List.append_assoc] at h2
  have hA : (18 : Nat) ≤ "Video generation failed after ".data.length := by decide
  have hB : (18 : Nat) ≤ "Video generation timeout after ".data.length := by decide
  rw [List.take_append_of_le_length hA, List.take_append_of_le_length hB] at h2
  exact absurd h2 (by decide)


/-- C8 (corrected): `_wait_for_video_task` does convert a terminal failed
status into an immediately raised failure error (after `k` continuing polls it
stops at poll `k+1` with the elapsed time and response message), on fuel
exhaustion it raises a timeout error with elapsed-time context, and the two
messages are always distinct; but `_poll_task_status` in `minimax_service.py`
returns `None` at once on a `Failed` status and the same `None` on timeout,
raising nothing, so its callers cannot tell rejection from timeout. -/
theorem poll_terminal_behaviour
    (responses : Nat → QueryResp) (k fuel : Nat) (body : VideoQueryBody) (st : String)
    (hcont : ∀ j, j < k → waitStep (responses j) (2 * j) = .next)
    (hk : responses k = .ok body)
    (hbr : ∀ br, body.base_resp = some br → br.status_code = 0)
    (hst : videoStatusOf body = some st)
    (hns : st ∉ videoSuccessStatuses) (hf : st ∈ videoFailedStatuses)
    (prsF : Nat → PollResp) (iter maxWait fuel2 : Nat) (r : TaskResult)
    (hgF : 10 * iter < maxWait) (hF : prsF iter = .httpOk r) (hrs : r.status = "Failed")
    (prsC : Nat → PollResp) (hpc : ∀ j, pollContinues (prsC j)) :
    waitForVideoTaskAux responses (fuel + 1 + k) 0
      = (.error ("Video generation failed after " ++ toString (2 * k) ++ "s: "
          ++ videoErrMsg body), k + 1)
    ∧ (∀ a, waitForVideoTaskAux responses 0 a
        = (.error ("Video generation timeout after " ++ toString (2 * a / 60) ++ "m "
            ++ toString (2 * a % 60) ++ "s"), a))
    ∧ (∀ el m tmo, "Video generation failed after " ++ el ++ "s: " ++ m
        ≠ "Video generation timeout after " ++ tmo)
    ∧ pollTaskStatusAux prsF maxWait (fuel2 + 1) iter = (none, iter + 1)
    ∧ pollTaskStatus prsC maxWait = none := by
  refine ⟨?_, fun a => rfl, fun el m tmo => videoMsg_ne_timeoutMsg el m tmo, ?_, ?_⟩
  · have ha := waitForVideoTaskAux_skip responses k (fuel + 1) 0
      (fun j h1 h2 => hcont j (by omega))
    rw [Nat.zero_add] at ha
    rw [ha, waitForVideoTaskAux, hk, waitStep_failed body (2 * k) st hbr hst hns hf]
  · rw [pollTaskStatusAux, if_pos hgF, hF]
    dsimp only
    rw [hrs, if_neg (by decide : ¬ ("Failed" = "Success")), if_pos rfl]
  · exact pollTaskStatusAux_none prsC maxWait hpc maxWait 0

/-- C8 counterexample: `_poll_task_status` yields the same outcome, `None`,
for an immediate API `Failed` rejection and for a task that never finishes
within `max_wait_time` — no raised error or message distinguishes the two. -/
theorem poll_terminal_counterexample :
    pollTaskStatus (fun _ => PollResp.httpOk { status := "Failed" }) 600
      = pollTaskStatus (fun _ => PollResp.httpOk { status := "Working" }) 600
    ∧ pollTaskStatus (fun _ => PollResp.httpOk { status := "Failed" }) 600 = none := by
  decide

/-- Witness: the poll-loop terminal-behaviour theorem at concrete inputs
(a failed status at the first poll; a 600-second `_poll_task_status` budget). -/
theorem poll_terminal_behaviour_witness :
    waitForVideoTaskAux (fun _ => QueryResp.ok failedBody) (3 + 1 + 0) 0
      = (.error ("Video generation failed after " ++ toString (2 * 0) ++ "s: "
          ++ videoErrMsg failedBody), 0 + 1)
    ∧ (∀ a, waitForVideoTaskAux (fun _ => QueryResp.ok failedBody) 0 a
        = (.error ("Video generation timeout after " ++ toString (2 * a / 60) ++ "m "
            ++ toString (2 * a % 60) ++ "s"), a))
    ∧ (∀ el m tmo, "Video generation failed after " ++ el ++ "s: " ++ m
        ≠ "Video generation timeout after " ++ tmo)
    ∧ pollTaskStatusAux (fun _ => PollResp.httpOk { status := "Failed" }) 600 (0 + 1) 0
        = (none, 0 + 1)
    ∧ pollTaskStatus (fun _ => PollResp.httpOk { status := "Working" }) 600 = none :=
  poll_terminal_behaviour (fun _ => QueryResp.ok failedBody) 0 3 failedBody "failed"
    (fun j h => absurd h (Nat.not_lt_zero j)) rfl
    (fun br h => Option.noConfusion h) rfl (by decide) (by decide)
    (fun _ => PollResp.httpOk { status := "Failed" }) 0 600 0 { status := "Failed" }
    (by decide) rfl rfl
    (fun _ => PollResp.httpOk { status := "Working" }) (fun j => ⟨by decide, by decide⟩)


/-! ### C6: the checkpoint JSON round trip (`_save_checkpoint` / `_load_checkpoint`) -/

mutual
/-- JSON values as the checkpoint dictionaries produce them: `None`, booleans,
integers (the scheduler stores indices and counts; `last_update` timestamps are
modelled at integer precision), strings, lists and string-keyed dicts. -/
inductive Json where
  | null
  | bool (b : Bool)
  | num (n : Int)
  | str (s : String)
  | arr (xs : JsonList)
  | obj (kvs : JsonObj)
deriving DecidableEq, Repr
inductive JsonList where
  | nil
  | cons (hd : Json) (tl : JsonList)
deriving DecidableEq, Repr
inductive JsonObj where
  | nil
  | cons (key : String) (val : Json) (tl : JsonObj)
deriving DecidableEq, Repr
end

/-- The character for decimal digit `n`. -/
def digitChar (n : Nat) : Char := Char.ofNat ('0'.toNat + n)

/-- Lowercase hex digit, as Python `'\u%04x' % n` formatting produces. -/
def hexChar (n : Nat) : Char :=
  if n < 10 then Char.ofNat ('0'.toNat + n) else Char.ofNat ('a'.toNat + (n - 10))

/-- `json.encoder` string escaping with `ensure_ascii=False`: only `\`, `"`
and control characters are escaped (named escapes, else `\u00XX`). -/
def escChar (c : Char) : List Char :=
  if c = '\\' then ['\\', '\\']
  else if c = '"' then ['\\', '"']
  else if c = '\x08' then ['\\', 'b']
  else if c = '\x0c' then ['\\', 'f']
  else if c = '\n' then ['\\', 'n']
  else if c = '\r' then ['\\', 'r']
  else if c = '\t' then ['\\', 't']
  else if c.toNat < 32 then
    ['\\', 'u', '0', '0', hexChar (c.toNat / 16), hexChar (c.toNat % 16)]
  else [c]

/-- Escape every character of a string body. -/
def escString : List Char → List Char
  | [] => []
  | c :: cs => escChar c ++ escString cs

/-- Decimal digits of `n`, most significant first (empty for `0`); the fuel
argument only bounds the recursion, `n` itself always suffices. -/
def natDigitsAux : Nat → Nat → List Char
  | 0, _ => []
  | fuel + 1, n =>
    if n = 0 then []
    else natDigitsAux fuel (n / 10) ++ [digitChar (n % 10)]

/-- Decimal representation of a natural number. -/
def serNat (n : Nat) : List Char :=
  if n = 0 then ['0'] else natDigitsAux n n

/-- Decimal representation of an integer, as `json.dump` writes it. -/
def serInt (n : Int) : List Char :=
  if n < 0 then '-' :: serNat n.natAbs else serNat n.natAbs

/-- The newline plus `2*level` spaces that `json.dump(..., indent=2)` writes
before each array item or object member at nesting depth `level`. -/
def nlIndent (level : Nat) : List Char := '\n' :: List.replicate (2 * level) ' '

mutual
/-- `json.dump(value, f, indent=2, ensure_ascii=False)`, at nesting `level`. -/
def serValue : Json → Nat → List Char
  | .null, _ => ['n', 'u', 'l', 'l']
  | .bool true, _ => ['t', 'r', 'u', 'e']
  | .bool false, _ => ['f', 'a', 'l', 's', 'e']
  | .num n, _ => serInt n
  | .str s, _ => '"' :: (escString s.data ++ ['"'])
  | .arr .nil, _ => ['[', ']']
  | .arr (.cons hd tl), level =>
    '[' :: (nlIndent (level + 1) ++ serValue hd (level + 1)
      ++ serListRest tl (level + 1) ++ nlIndent level ++ [']'])
  | .obj .nil, _ => ['\x7b', '\x7d']
  | .obj (.cons k v tl), level =>
    '\x7b' :: (nlIndent (level + 1) ++ serKV k v (level + 1)
      ++ serObjRest tl (level + 1) ++ nlIndent level ++ ['\x7d'])
/-- The remaining array items, each preceded by `,` and a fresh line. -/
def serListRest : JsonList → Nat → List Char
  | .nil, _ => []
  | .cons hd tl, level =>
    ',' :: (nlIndent level ++ serValue hd level ++ serListRest tl level)
/-- One `"key": value` object member. -/
def serKV (k : String) (v : Json) (level : Nat) : List Char :=
  '"' :: (escString k.data ++ ('"' :: ':' :: ' ' :: serValue v level))
/-- The remaining object members, each preceded by `,` and a fresh line. -/
def serObjRest : JsonObj → Nat → List Char
  | .nil, _ => []
  | .cons k v tl, level =>
    ',' :: (nlIndent level ++ serKV k v level ++ serObjRest tl level)
end

/-- The JSON whitespace characters `json.load` skips. -/
def isJsonWs (c : Char) : Prop := c = ' ' ∨ c = '\t' ∨ c = '\n' ∨ c = '\r'

instance (c : Char) : Decidable (isJsonWs c) := by
  unfold isJsonWs
  infer_instance

/-- Drop leading JSON whitespace. -/
def skipWs : List Char → List Char
  | [] => []
  | c :: cs => if isJsonWs c then skipWs cs else c :: cs

/-- Accumulate consecutive decimal digits (`acc` is the value read so far). -/
def parseDigits : Nat → List Char → Nat × List Char
  | acc, [] => (acc, [])
  | acc, c :: cs =>
    if c.isDigit then parseDigits (acc * 10 + (c.toNat - '0'.toNat)) cs
    else (acc, c :: cs)

/-- Value of one hex digit. -/
def hexVal (c : Char) : Option Nat :=
  if c.isDigit then some (c.toNat - '0'.toNat)
  else if 'a' ≤ c ∧ c ≤ 'f' then some (c.toNat - 'a'.toNat + 10)
  else if 'A' ≤ c ∧ c ≤ 'F' then some (c.toNat - 'A'.toNat + 10)
  else none

/-- The named JSON escapes `json.load` accepts after a backslash. -/
def unescape (e : Char) : Option Char :=
  if e = '"' then some '"'
  else if e = '\\' then some '\\'
  else if e = '/' then some '/'
  else if e = 'b' then some '\x08'
  else if e = 'f' then some '\x0c'
  else if e = 'n' then some '\n'
  else if e = 'r' then some '\r'
  else if e = 't' then some '\t'
  else none

/-- String body after the opening quote: raw characters up to the closing
quote, with backslash escapes and `\uXXXX`; raw control characters are
rejected (`json.load` is strict). -/
def parseStringBody : List Char → Option (List Char × List Char)
  | [] => none
  | c :: rest =>
    if c = '"' then some ([], rest)
    else if c = '\\' then
      match rest with
      | [] => none
      | e :: rest2 =>
        if e = 'u' then
          match rest2 with
          | h1 :: h2 :: h3 :: h4 :: rest3 =>
            match hexVal h1, hexVal h2, hexVal h3, hexVal h4 with
            | some a, some b, some c3, some d =>
              (parseStringBody rest3).map
                (fun p => (Char.ofNat (((a * 16 + b) * 16 + c3) * 16 + d) :: p.1, p.2))
            | _, _, _, _ => none
          | _ => none
        else
          match unescape e with
          | some u => (parseStringBody rest2).map (fun p => (u :: p.1, p.2))
          | none => none
    else if c.toNat < 32 then none
    else (parseStringBody rest).map (fun p => (c :: p.1, p.2))

mutual
/-- Recursive-descent `json.load` on character lists (fuel-bounded; the
input length plus one always suffices). Floats are not modelled: the
checkpoint values parsed here carry integers. -/
def parseValue : Nat → List Char → Option (Json × List Char)
  | 0, _ => none
  | fuel + 1, input =>
    match skipWs input with
    | [] => none
    | c :: rest =>
      if c = '"' then
        (parseStringBody rest).map (fun p => (.str (String.mk p.1), p.2))
      else if c = '[' then parseArr fuel rest
      else if c = '\x7b' then parseObj fuel rest
      else if c = '-' then
        match rest with
        | d :: _ =>
          if d.isDigit then
            some (.num (-((parseDigits 0 rest).1 : Int)), (parseDigits 0 rest).2)
          else none
        | [] => none
      else if c.isDigit then
        some (.num ((parseDigits 0 (c :: rest)).1 : Int), (parseDigits 0 (c :: rest)).2)
      else if c = 'n' then
        match rest with
        | u :: l1 :: l2 :: rest2 =>
          if u = 'u' ∧ l1 = 'l' ∧ l2 = 'l' then some (.null, rest2) else none
        | _ => none
      else if c = 't' then
        match rest with
        | r1 :: u1 :: e1 :: rest2 =>
          if r1 = 'r' ∧ u1 = 'u' ∧ e1 = 'e' then some (.bool true, rest2) else none
        | _ => none
      else if c = 'f' then
        match rest with
        | a1 :: l1 :: s1 :: e1 :: rest2 =>
          if a1 = 'a' ∧ l1 = 'l' ∧ s1 = 's' ∧ e1 = 'e' then some (.bool false, rest2)
          else none
        | _ => none
      else none
/-- Array body after `[`: empty array or first element plus the rest. -/
def parseArr : Nat → List Char → Option (Json × List Char)
  | 0, _ => none
  | fuel + 1, input =>
    match skipWs input with
    | [] => none
    | c :: rest =>
      if c = ']' then some (.arr .nil, rest)
      else
        match parseValue fuel (c :: rest) with
        | some (v, rest2) =>
          match parseArrRest fuel rest2 with
          | some (tl, rest3) => some (.arr (.cons v tl), rest3)
          | none => none
        | none => none
/-- After one array element: `]` ends the array, `,` precedes the next. -/
def parseArrRest : Nat → List Char → Option (JsonList × List Char)
  | 0, _ => none
  | fuel + 1, input =>
    match skipWs input with
    | [] => none
    | c :: rest =>
      if c = ']' then some (.nil, rest)
      else if c = ',' then
        match parseValue fuel rest with
        | some (v, rest2) =>
          match parseArrRest fuel rest2 with
          | some (tl, rest3) => some (.cons v tl, rest3)
          | none => none
        | none => none
      else none
/-- Object body after the opening brace. -/
def parseObj : Nat → List Char → Option (Json × List Char)
  | 0, _ => none
  | fuel + 1, input =>
    match skipWs input with
    | [] => none
    | c :: rest =>
      if c = '\x7d' then some (.obj .nil, rest)
      else if c = '"' then
        match parseMember fuel rest with
        | some (k, v, rest2) =>
          match parseObjRest fuel rest2 with
          | some (tl, rest3) => some (.obj (.cons k v tl), rest3)
          | none => none
        | none => none
      else none
/-- One `"key": value` member, entered after its opening quote. -/
def parseMember : Nat → List Char → Option (String × Json × List Char)
  | 0, _ => none
  | fuel + 1, afterQuote =>
    match parseStringBody afterQuote with
    | some (k, rest) =>
      match skipWs rest with
      | [] => none
      | c :: rest2 =>
        if c = ':' then
          match parseValue fuel rest2 with
          | some (v, rest3) => some (String.mk k, v, rest3)
          | none => none
        else none
    | none => none
/-- After one object member: the closing brace ends the object, `,` precedes
the next member. -/
def parseObjRest : Nat → List Char → Option (JsonObj × List Char)
  | 0, _ => none
  | fuel + 1, input =>
    match skipWs input with
    | [] => none
    | c :: rest =>
      if c = '\x7d' then some (.nil, rest)
      else if c = ',' then
        match skipWs rest with
        | [] => none
        | c2 :: rest2 =>
          if c2 = '"' then
            match parseMember fuel rest2 with
            | some (k, v, rest3) =>
              match parseObjRest fuel rest3 with
              | some (tl, rest4) => some (.cons k v tl, rest4)
              | none => none
            | none => none
          else none
      else none
end

/-- `json.dump(checkpoint_data, f, indent=2, ensure_ascii=False)` as text. -/
def dumps (v : Json) : String := String.mk (serValue v 0)

/-- `json.load`: parse one value, allowing only trailing whitespace. -/
def loads (s : String) : Option Json :=
  match parseValue (s.data.length + 1) s.data with
  | some (v, rest) => if skipWs rest = [] then some v else none
  | none => none

/-- Does an object already bind `key`? -/
def objHasKey : JsonObj → String → Bool
  | .nil, _ => false
  | .cons k _ tl, key => k == key || objHasKey tl key

mutual
/-- A JSON-serializable checkpoint record as a Python dict produces it:
every object binds pairwise-distinct keys. -/
def validV : Json → Bool
  | .null | .bool _ | .num _ | .str _ => true
  | .arr xs => validL xs
  | .obj kvs => validO kvs
def validL : JsonList → Bool
  | .nil => true
  | .cons hd tl => validV hd && validL tl
def validO : JsonObj → Bool
  | .nil => true
  | .cons k v tl => !(objHasKey tl k) && validV v && validO tl
end

/-- `_get_checkpoint_path(session_id)`: the file `checkpoint_<sid>.json`
inside the checkpoint directory (modelled as the map key). -/
def checkpointPath (session_id : String) : String :=
  "checkpoint_" ++ session_id ++ ".json"

/-- `_save_checkpoint` over a map from paths to file contents. -/
def save_checkpoint (files : String → Option String) (session_id : String)
    (checkpoint_data : Json) : String → Option String :=
  fun p => if p = checkpointPath session_id then some (dumps checkpoint_data) else files p

/-- `_load_checkpoint`: parse the stored file; `{}` when the file is absent
or unparseable. -/
def load_checkpoint (files : String → Option String) (session_id : String) : Json :=
  match files (checkpointPath session_id) with
  | some text =>
    match loads text with
    | some v => v
    | none => .obj .nil
  | none => .obj .nil


/-- A stream that does not begin with a decimal digit (what follows a
serialized number: a separator, bracket, newline or the end). -/
def noDigit : List Char → Prop
  | [] => True
  | c :: _ => c.isDigit = false

/-- Heads that steer every parser dispatch the same way: not whitespace and
not one of the closing/separator tokens. -/
def goodHead (c : Char) : Prop :=
  ¬ isJsonWs c ∧ c ≠ ']' ∧ c ≠ '\x7d' ∧ c ≠ ','

instance (c : Char) : Decidable (goodHead c) := by
  unfold goodHead
  infer_instance

theorem skipWs_replicate_space (n : Nat) (s : List Char) :
    skipWs (List.replicate n ' ' ++ s) = skipWs s := by
  induction n with
  | zero => rfl
  | succ n ih =>
    rw [List.replicate_succ, List.cons_append, skipWs, if_pos (by decide)]
    exact ih

theorem skipWs_nlIndent (level : Nat) (s : List Char) :
    skipWs (nlIndent level ++ s) = skipWs s := by
  rw [nlIndent, List.cons_append, skipWs, if_pos (by decide)]
  exact skipWs_replicate_space _ _

theorem skipWs_cons {c : Char} (h : ¬ isJsonWs c) (s : List Char) :
    skipWs (c :: s) = c :: s := by
  rw [skipWs, if_neg h]

theorem digitChar_goodHead : ∀ d < 10, goodHead (digitChar d) := by decide

theorem digitChar_isDigit : ∀ d < 10, (digitChar d).isDigit = true := by decide

theorem digitChar_val : ∀ d < 10, (digitChar d).toNat - '0'.toNat = d := by decide

theorem digitChar_not_structural : ∀ d < 10, digitChar d ≠ '"' ∧ digitChar d ≠ '['
    ∧ digitChar d ≠ '\x7b' ∧ digitChar d ≠ '-' := by decide

theorem hexVal_hexChar : ∀ h < 16, hexVal (hexChar h) = some h := by decide

theorem natDigitsAux_zero (fuel : Nat) : natDigitsAux fuel 0 = [] := by
  cases fuel <;> simp [natDigitsAux]

theorem natDigits_head : ∀ (fuel n : Nat), n ≠ 0 → n ≤ fuel →
    ∃ d t, d < 10 ∧ natDigitsAux fuel n = digitChar d :: t
  | 0, n, hn, hle => absurd (Nat.le_zero.mp hle) hn
  | fuel + 1, n, hn, hle => by
    rw [natDigitsAux, if_neg hn]
    by_cases h10 : n / 10 = 0
    · rw [h10, natDigitsAux_zero]
      exact ⟨n % 10, [], Nat.mod_lt n (by omega), rfl⟩
    · obtain ⟨d, t, hd, ht⟩ := natDigits_head fuel (n / 10) h10 (by omega)
      rw [ht]
      exact ⟨d, t ++ [digitChar (n % 10)], hd, rfl⟩

theorem parseDigits_stop (acc : Nat) {rest : List Char} (h : noDigit rest) :
    parseDigits acc rest = (acc, rest) := by
  cases rest with
  | nil => rfl
  | cons c cs =>
    rw [parseDigits, if_neg (by simp [noDigit] at h; simp [h])]

theorem parseDigits_append : ∀ (fuel m : Nat), m ≤ fuel → ∀ (acc : Nat) (rest : List Char),
    parseDigits acc (natDigitsAux fuel m ++ rest)
      = parseDigits (acc * 10 ^ (natDigitsAux fuel m).length + m) rest
  | 0, m, hle, acc, rest => by
    have hm : m = 0 := by omega
    subst hm
    rw [natDigitsAux]
    simp
  | fuel + 1, m, hle, acc, rest => by
    by_cases hm : m = 0
    · subst hm
      rw [natDigitsAux, if_pos rfl]
      simp
    · rw [natDigitsAux, if_neg hm, List.append_assoc, List.singleton_append]
      rw [parseDigits_append fuel (m / 10) (by omega) acc (digitChar (m % 10) :: rest)]
      have h10 : m % 10 < 10 := Nat.mod_lt m (by omega)
      rw [parseDigits, if_pos (digitChar_isDigit (m % 10) h10), digitChar_val (m % 10) h10]
      have hlen : (natDigitsAux fuel (m / 10) ++ [digitChar (m % 10)]).length
          = (natDigitsAux fuel (m / 10)).length + 1 := by
        rw [List.length_append, List.length_singleton]
      rw [hlen, pow_succ]
      have harith : acc * ((10 : Nat) ^ (natDigitsAux fuel (m / 10)).length * 10) + m
          = (acc * 10 ^ (natDigitsAux fuel (m / 10)).length + m / 10) * 10 + m % 10 := by
        rw [Nat.add_mul, ← Nat.mul_assoc, Nat.add_assoc, Nat.div_add_mod']
      rw [harith]


/-- Unfolding equations for the mutual serializer. -/
theorem serValue_null (level : Nat) : serValue .null level = ['n', 'u', 'l', 'l'] := by
  rw [serValue.eq_def]

theorem serValue_true (level : Nat) : serValue (.bool true) level = ['t', 'r', 'u', 'e'] := by
  rw [serValue.eq_def]

theorem serValue_false (level : Nat) :
    serValue (.bool false) level = ['f', 'a', 'l', 's', 'e'] := by
  rw [serValue.eq_def]

theorem serValue_num (n : Int) (level : Nat) : serValue (.num n) level = serInt n := by
  rw [serValue.eq_def]

theorem serValue_str (s : String) (level : Nat) :
    serValue (.str s) level = '"' :: (escString s.data ++ ['"']) := by
  rw [serValue.eq_def]

theorem serValue_arrNil (level : Nat) : serValue (.arr .nil) level = ['[', ']'] := by
  rw [serValue.eq_def]

theorem serValue_arrCons (hd : Json) (tl : JsonList) (level : Nat) :
    serValue (.arr (.cons hd tl)) level
      = '[' :: (nlIndent (level + 1) ++ serValue hd (level + 1)
        ++ serListRest tl (level + 1) ++ nlIndent level ++ [']']) := by
  rw [serValue.eq_def]

theorem serValue_objNil (level : Nat) : serValue (.obj .nil) level = ['\x7b', '\x7d'] := by
  rw [serValue.eq_def]

theorem serValue_objCons (k : String) (v : Json) (tl : JsonObj) (level : Nat) :
    serValue (.obj (.cons k v tl)) level
      = '\x7b' :: (nlIndent (level + 1) ++ serKV k v (level + 1)
        ++ serObjRest tl (level + 1) ++ nlIndent level ++ ['\x7d']) := by
  rw [serValue.eq_def]

theorem serListRest_nil (level : Nat) : serListRest .nil level = [] := by
  rw [serListRest.eq_def]

theorem serListRest_cons (hd : Json) (tl : JsonList) (level : Nat) :
    serListRest (.cons hd tl) level
      = ',' :: (nlIndent level ++ serValue hd level ++ serListRest tl level) := by
  rw [serListRest.eq_def]

theorem serObjRest_nil (level : Nat) : serObjRest .nil level = [] := by
  rw [serObjRest.eq_def]

theorem serObjRest_cons (k : String) (v : Json) (tl : JsonObj) (level : Nat) :
    serObjRest (.cons k v tl) level
      = ',' :: (nlIndent level ++ serKV k v level ++ serObjRest tl level) := by
  rw [serObjRest.eq_def]

/-- Step equations for the string-body parser. -/
theorem parseStringBody_quote (rest : List Char) :
    parseStringBody ('"' :: rest) = some ([], rest) := by
  rw [parseStringBody.eq_def]
  dsimp only
  rw [if_pos rfl]

theorem parseStringBody_escaped (e : Char) (he : e ≠ 'u') (rest : List Char) :
    parseStringBody ('\\' :: e :: rest)
      = match unescape e with
        | some u => (parseStringBody rest).map (fun p => (u :: p.1, p.2))
        | none => none := by
  rw [parseStringBody.eq_def]
  dsimp only
  rw [if_neg (by decide), if_pos rfl, if_neg he]

theorem parseStringBody_unicode (h1 h2 h3 h4 : Char) (rest : List Char) :
    parseStringBody ('\\' :: 'u' :: h1 :: h2 :: h3 :: h4 :: rest)
      = match hexVal h1, hexVal h2, hexVal h3, hexVal h4 with
        | some a, some b, some c3, some d =>
          (parseStringBody rest).map
            (fun p => (Char.ofNat (((a * 16 + b) * 16 + c3) * 16 + d) :: p.1, p.2))
        | _, _, _, _ => none := by
  rw [parseStringBody.eq_def]
  dsimp only
  rw [if_neg (by decide), if_pos rfl, if_pos rfl]

theorem parseStringBody_raw (c : Char) (hq : c ≠ '"') (hb : c ≠ '\\')
    (hc : ¬ c.toNat < 32) (rest : List Char) :
    parseStringBody (c :: rest)
      = (parseStringBody rest).map (fun p => (c :: p.1, p.2)) := by
  rw [parseStringBody.eq_def]
  dsimp only
  rw [if_neg hq, if_neg hb, if_neg hc]

/-- Unescaping undoes the `json.encoder` escaping, character by character. -/
theorem parseStringBody_esc : ∀ (cs rest : List Char),
    parseStringBody (escString cs ++ '"' :: rest) = some (cs, rest)
  | [], rest => by
    rw [escString, List.nil_append, parseStringBody_quote]
  | c :: cs, rest => by
    rw [escString, List.append_assoc]
    by_cases h1 : c = '\\'
    · subst h1
      rw [show escChar '\\' = ['\\', '\\'] from rfl]
      simp only [List.cons_append, List.nil_append]
      rw [parseStringBody_escaped '\\' (by decide),
        show unescape '\\' = some '\\' from rfl]
      dsimp only
      rw [parseStringBody_esc cs rest]
      rfl
    by_cases h2 : c = '"'
    · subst h2
      rw [show escChar '"' = ['\\', '"'] from rfl]
      simp only [List.cons_append, List.nil_append]
      rw [parseStringBody_escaped '"' (by decide),
        show unescape '"' = some '"' from rfl]
      dsimp only
      rw [parseStringBody_esc cs rest]
      rfl
    by_cases h3 : c = '\x08'
    · subst h3
      rw [show escChar '\x08' = ['\\', 'b'] from rfl]
      simp only [List.cons_append, List.nil_append]
      rw [parseStringBody_escaped 'b' (by decide),
        show unescape 'b' = some '\x08' from rfl]
      dsimp only
      rw [parseStringBody_esc cs rest]
      rfl
    by_cases h4 : c = '\x0c'
    · subst h4
      rw [show escChar '\x0c' = ['\\', 'f'] from rfl]
      simp only [List.cons_append, List.nil_append]
      rw [parseStringBody_escaped 'f' (by decide),
        show unescape 'f' = some '\x0c' from rfl]
      dsimp only
      rw [parseStringBody_esc cs rest]
      rfl
    by_cases h5 : c = '\n'
    · subst h5
      rw [show escChar '\n' = ['\\', 'n'] from rfl]
      simp only [List.cons_append, List.nil_append]
      rw [parseStringBody_escaped 'n' (by decide),
        show unescape 'n' = some '\n' from rfl]
      dsimp only
      rw [parseStringBody_esc cs rest]
      rfl
    by_cases h6 : c = '\r'
    · subst h6
      rw [show escChar '\r' = ['\\', 'r'] from rfl]
      simp only [List.cons_append, List.nil_append]
      rw [parseStringBody_escaped 'r' (by decide),
        show unescape 'r' = some '\r' from rfl]
      dsimp only
      rw [parseStringBody_esc cs rest]
      rfl
    by_cases h7 : c = '\t'
    · subst h7
      rw [show escChar '\t' = ['\\', 't'] from rfl]
      simp only [List.cons_append, List.nil_append]
      rw [parseStringBody_escaped 't' (by decide),
        show unescape 't' = some '\t' from rfl]
      dsimp only
      rw [parseStringBody_esc cs rest]
      rfl
    by_cases h32 : c.toNat < 32
    · rw [escChar, if_neg h1, if_neg h2, if_neg h3, if_neg h4, if_neg h5, if_neg h6,
        if_neg h7, if_pos h32]
      simp only [List.cons_append, List.nil_append]
      rw [parseStringBody_unicode, show hexVal '0' = some 0 from rfl,
        hexVal_hexChar (c.toNat / 16) (by omega),
        hexVal_hexChar (c.toNat % 16) (Nat.mod_lt _ (by omega))]
      dsimp only
      have hval : ((0 * 16 + 0) * 16 + c.toNat / 16) * 16 + c.toNat % 16 = c.toNat := by
        omega
      rw [hval, Char.ofNat_toNat, parseStringBody_esc cs rest]
      rfl
    · rw [escChar, if_neg h1, if_neg h2, if_neg h3, if_neg h4, if_neg h5, if_neg h6,
        if_neg h7, if_neg h32]
      rw [List.singleton_append, parseStringBody_raw c h2 h1 h32,
        parseStringBody_esc cs rest]
      rfl

/-- The first serialized character always dispatches the parsers uniformly. -/
theorem serValue_head (v : Json) (level : Nat) :
    ∃ c t, serValue v level = c :: t ∧ goodHead c := by
  cases v with
  | null => exact ⟨'n', ['u', 'l', 'l'], serValue_null level, by decide⟩
  | bool b =>
    cases b with
    | true => exact ⟨'t', ['r', 'u', 'e'], serValue_true level, by decide⟩
    | false => exact ⟨'f', ['a', 'l', 's', 'e'], serValue_false level, by decide⟩
  | num n =>
    rw [serValue_num, serInt]
    by_cases hneg : n < 0
    · rw [if_pos hneg]
      exact ⟨'-', _, rfl, by decide⟩
    · rw [if_neg hneg, serNat]
      by_cases h0 : n.natAbs = 0
      · rw [if_pos h0]
        exact ⟨'0', [], rfl, by decide⟩
      · rw [if_neg h0]
        obtain ⟨d, t, hd, ht⟩ := natDigits_head n.natAbs n.natAbs h0 (le_refl _)
        rw [ht]
        exact ⟨digitChar d, t, rfl, digitChar_goodHead d hd⟩
  | str s => exact ⟨'"', escString s.data ++ ['"'], serValue_str s level, by decide⟩
  | arr xs =>
    cases xs with
    | nil => exact ⟨'[', [']'], serValue_arrNil level, by decide⟩
    | cons hd tl =>
      exact ⟨'[', nlIndent (level + 1) ++ serValue hd (level + 1)
        ++ serListRest tl (level + 1) ++ nlIndent level ++ [']'],
        serValue_arrCons hd tl level, by decide⟩
  | obj kvs =>
    cases kvs with
    | nil => exact ⟨'\x7b', ['\x7d'], serValue_objNil level, by decide⟩
    | cons k v tl =>
      exact ⟨'\x7b', nlIndent (level + 1) ++ serKV k v (level + 1)
        ++ serObjRest tl (level + 1) ++ nlIndent level ++ ['\x7d'],
        serValue_objCons k v tl level, by decide⟩

/-- `parseValue` only looks at its input through `skipWs`. -/
theorem parseValue_skipWs_congr (fuel : Nat) {a b : List Char}
    (h : skipWs a = skipWs b) : parseValue fuel a = parseValue fuel b := by
  cases fuel with
  | zero => rfl
  | succ f =>
    rw [parseValue.eq_def, parseValue.eq_def]
    dsimp only
    rw [h]


/-- Step equation of `parseValue` at positive fuel. -/
theorem parseValue_succ (fuel : Nat) (input : List Char) :
    parseValue (fuel + 1) input
      = match skipWs input with
        | [] => none
        | c :: rest =>
          if c = '"' then
            (parseStringBody rest).map (fun p => (.str (String.mk p.1), p.2))
          else if c = '[' then parseArr fuel rest
          else if c = '\x7b' then parseObj fuel rest
          else if c = '-' then
            match rest with
            | d :: _ =>
              if d.isDigit then
                some (.num (-((parseDigits 0 rest).1 : Int)), (parseDigits 0 rest).2)
              else none
            | [] => none
          else if c.isDigit then
            some (.num ((parseDigits 0 (c :: rest)).1 : Int), (parseDigits 0 (c :: rest)).2)
          else if c = 'n' then
            match rest with
            | u :: l1 :: l2 :: rest2 =>
              if u = 'u' ∧ l1 = 'l' ∧ l2 = 'l' then some (.null, rest2) else none
            | _ => none
          else if c = 't' then
            match rest with
            | r1 :: u1 :: e1 :: rest2 =>
              if r1 = 'r' ∧ u1 = 'u' ∧ e1 = 'e' then some (.bool true, rest2) else none
            | _ => none
          else if c = 'f' then
            match rest with
            | a1 :: l1 :: s1 :: e1 :: rest2 =>
              if a1 = 'a' ∧ l1 = 'l' ∧ s1 = 's' ∧ e1 = 'e' then some (.bool false, rest2)
              else none
            | _ => none
          else none := by
  rw [parseValue.eq_def]

/-- Step equation of `parseArr` at positive fuel. -/
theorem parseArr_succ (fuel : Nat) (input : List Char) :
    parseArr (fuel + 1) input
      = match skipWs input with
        | [] => none
        | c :: rest =>
          if c = ']' then some (.arr .nil, rest)
          else
            match parseValue fuel (c :: rest) with
            | some (v, rest2) =>
              match parseArrRest fuel rest2 with
              | some (tl, rest3) => some (.arr (.cons v tl), rest3)
              | none => none
            | none => none := by
  rw [parseArr.eq_def]

/-- Step equation of `parseArrRest` at positive fuel. -/
theorem parseArrRest_succ (fuel : Nat) (input : List Char) :
    parseArrRest (fuel + 1) input
      = match skipWs input with
        | [] => none
        | c :: rest =>
          if c = ']' then some (.nil, rest)
          else if c = ',' then
            match parseValue fuel rest with
            | some (v, rest2) =>
              match parseArrRest fuel rest2 with
              | some (tl, rest3) => some (.cons v tl, rest3)
              | none => none
            | none => none
          else none := by
  rw [parseArrRest.eq_def]

/-- Step equation of `parseObj` at positive fuel. -/
theorem parseObj_succ (fuel : Nat) (input : List Char) :
    parseObj (fuel + 1) input
      = match skipWs input with
        | [] => none
        | c :: rest =>
          if c = '\x7d' then some (.obj .nil, rest)
          else if c = '"' then
            match parseMember fuel rest with
            | some (k, v, rest2) =>
              match parseObjRest fuel rest2 with
              | some (tl, rest3) => some (.obj (.cons k v tl), rest3)
              | none => none
            | none => none
          else none := by
  rw [parseObj.eq_def]

/-- Step equation of `parseMember` at positive fuel. -/
theorem parseMember_succ (fuel : Nat) (afterQuote : List Char) :
    parseMember (fuel + 1) afterQuote
      = match parseStringBody afterQuote with
        | some (k, rest) =>
          match skipWs rest with
          | [] => none
          | c :: rest2 =>
            if c = ':' then
              match parseValue fuel rest2 with
              | some (v, rest3) => some (String.mk k, v, rest3)
              | none => none
            else none
        | none => none := by
  rw [parseMember.eq_def]

/-- Step equation of `parseObjRest` at positive fuel. -/
theorem parseObjRest_succ (fuel : Nat) (input : List Char) :
    parseObjRest (fuel + 1) input
      = match skipWs input with
        | [] => none
        | c :: rest =>
          if c = '\x7d' then some (.nil, rest)
          else if c = ',' then
            match skipWs rest with
            | [] => none
            | c2 :: rest2 =>
              if c2 = '"' then
                match parseMember fuel rest2 with
                | some (k, v, rest3) =>
                  match parseObjRest fuel rest3 with
                  | some (tl, rest4) => some (.cons k v tl, rest4)
                  | none => none
                | none => none
              else none
          else none := by
  rw [parseObjRest.eq_def]

mutual
/-- Fuel sufficient for `parseValue` on the serialized form of a value. -/
def neededV : Json → Nat
  | .null | .bool _ | .num _ | .str _ => 1
  | .arr xs => 2 + neededL xs
  | .obj kvs => 2 + neededO kvs
/-- Fuel headroom for the remaining items of an array. -/
def neededL : JsonList → Nat
  | .nil => 0
  | .cons hd tl => 1 + neededV hd + neededL tl
/-- Fuel headroom for the remaining members of an object. -/
def neededO : JsonObj → Nat
  | .nil => 0
  | .cons _ v tl => 2 + neededV v + neededO tl
end

theorem neededV_null : neededV .null = 1 := by rw [neededV.eq_def]

theorem neededV_bool (b : Bool) : neededV (.bool b) = 1 := by rw [neededV.eq_def]

theorem neededV_num (n : Int) : neededV (.num n) = 1 := by rw [neededV.eq_def]

theorem neededV_str (s : String) : neededV (.str s) = 1 := by rw [neededV.eq_def]

theorem neededV_arr (xs : JsonList) : neededV (.arr xs) = 2 + neededL xs := by
  rw [neededV.eq_def]

theorem neededV_obj (kvs : JsonObj) : neededV (.obj kvs) = 2 + neededO kvs := by
  rw [neededV.eq_def]

theorem neededL_nil : neededL .nil = 0 := by rw [neededL.eq_def]

theorem neededL_cons (hd : Json) (tl : JsonList) :
    neededL (.cons hd tl) = 1 + neededV hd + neededL tl := by
  rw [neededL.eq_def]

theorem neededO_nil : neededO .nil = 0 := by rw [neededO.eq_def]

theorem neededO_cons (k : String) (v : Json) (tl : JsonObj) :
    neededO (.cons k v tl) = 2 + neededV v + neededO tl := by
  rw [neededO.eq_def]

/-- What follows the items of a serialized array never starts with a digit. -/
theorem noDigit_listSep (tl : JsonList) (level cl : Nat) (close : Char)
    (hc : close.isDigit = false) (rest : List Char) :
    noDigit (serListRest tl level ++ (nlIndent cl ++ (close :: rest))) := by
  cases tl with
  | nil =>
    rw [serListRest_nil, List.nil_append, nlIndent, List.cons_append]
    exact (by decide : ('\n'.isDigit = false))
  | cons hd tl2 =>
    rw [serListRest_cons, List.cons_append]
    exact (by decide : (','.isDigit = false))

/-- What follows the members of a serialized object never starts with a digit. -/
theorem noDigit_objSep (tl : JsonObj) (level cl : Nat) (close : Char)
    (hc : close.isDigit = false) (rest : List Char) :
    noDigit (serObjRest tl level ++ (nlIndent cl ++ (close :: rest))) := by
  cases tl with
  | nil =>
    rw [serObjRest_nil, List.nil_append, nlIndent, List.cons_append]
    exact (by decide : ('\n'.isDigit = false))
  | cons k v tl2 =>
    rw [serObjRest_cons, List.cons_append]
    exact (by decide : (','.isDigit = false))

/-- A serialized natural number starts with a digit character. -/
theorem serNat_head (m : Nat) : ∃ d t, d < 10 ∧ serNat m = digitChar d :: t := by
  rw [serNat]
  by_cases h0 : m = 0
  · rw [if_pos h0]
    exact ⟨0, [], by omega, by decide⟩
  · rw [if_neg h0]
    obtain ⟨d, t, hd, ht⟩ := natDigits_head m m h0 (le_refl _)
    exact ⟨d, t, hd, ht⟩

/-- Reading back the decimal representation of `m`. -/
theorem parseDigits_serNat (m : Nat) (rest : List Char) (h : noDigit rest) :
    parseDigits 0 (serNat m ++ rest) = (m, rest) := by
  rw [serNat]
  by_cases h0 : m = 0
  · rw [if_pos h0, List.singleton_append, parseDigits, if_pos (by decide),
      show 0 * 10 + ('0'.toNat - '0'.toNat) = 0 from by decide, parseDigits_stop 0 h, h0]
  · rw [if_neg h0, parseDigits_append m m (le_refl _) 0 rest, parseDigits_stop _ h]
    rw [show 0 * 10 ^ (natDigitsAux m m).length + m = m from by omega]

/-- Parsing one serialized `"key": value` member after its opening quote. -/
theorem parseMember_run (k : String) (v : Json) (fuel level : Nat) (after : List Char)
    (hval : parseValue fuel (serValue v level ++ after) = some (v, after)) :
    parseMember (fuel + 1)
      ((escString k.data ++ ('"' :: ':' :: ' ' :: serValue v level)) ++ after)
      = some (k, v, after) := by
  have hnorm : (escString k.data ++ ('"' :: ':' :: ' ' :: serValue v level)) ++ after
      = escString k.data ++ '"' :: (':' :: ' ' :: (serValue v level ++ after)) := by
    simp [List.append_assoc]
  rw [hnorm, parseMember_succ, parseStringBody_esc k.data]
  dsimp only
  rw [skipWs_cons (by decide)]
  dsimp only
  rw [if_pos rfl]
  have hsp : skipWs (' ' :: (serValue v level ++ after))
      = skipWs (serValue v level ++ after) := by
    rw [skipWs, if_pos (by decide)]
  rw [parseValue_skipWs_congr fuel hsp, hval]


mutual
/-- Parsing inverts serialization: one value, given enough fuel and a
continuation that does not begin with a digit. -/
theorem parseValue_ser : ∀ (v : Json) (fuel : Nat), neededV v ≤ fuel →
    ∀ (level : Nat) (rest : List Char), noDigit rest →
    parseValue fuel (serValue v level ++ rest) = some (v, rest)
  | .null, fuel, hfuel, level, rest, hrest => by
    obtain ⟨f, rfl⟩ : ∃ f, fuel = f + 1 :=
      ⟨fuel - 1, by rw [neededV_null] at hfuel; omega⟩
    rw [serValue_null]
    simp only [List.cons_append, List.nil_append]
    rw [parseValue_succ, skipWs_cons (by decide)]
    dsimp only
    rw [if_neg (by decide), if_neg (by decide), if_neg (by decide), if_neg (by decide),
      if_neg (by decide), if_pos rfl, if_pos (by decide)]
  | .bool true, fuel, hfuel, level, rest, hrest => by
    obtain ⟨f, rfl⟩ : ∃ f, fuel = f + 1 :=
      ⟨fuel - 1, by rw [neededV_bool] at hfuel; omega⟩
    rw [serValue_true]
    simp only [List.cons_append, List.nil_append]
    rw [parseValue_succ, skipWs_cons (by decide)]
    dsimp only
    rw [if_neg (by decide), if_neg (by decide), if_neg (by decide), if_neg (by decide),
      if_neg (by decide), if_neg (by decide), if_pos rfl, if_pos (by decide)]
  | .bool false, fuel, hfuel, level, rest, hrest => by
    obtain ⟨f, rfl⟩ : ∃ f, fuel = f + 1 :=
      ⟨fuel - 1, by rw [neededV_bool] at hfuel; omega⟩
    rw [serValue_false]
    simp only [List.cons_append, List.nil_append]
    rw [parseValue_succ, skipWs_cons (by decide)]
    dsimp only
    rw [if_neg (by decide), if_neg (by decide), if_neg (by decide), if_neg (by decide),
      if_neg (by decide), if_neg (by decide), if_neg (by decide), if_pos rfl, if_pos (by decide)]
  | .num n, fuel, hfuel, level, rest, hrest => by
    obtain ⟨f, rfl⟩ : ∃ f, fuel = f + 1 :=
      ⟨fuel - 1, by rw [neededV_num] at hfuel; omega⟩
    rw [serValue_num, serInt]
    obtain ⟨d, t, hd, ht⟩ := serNat_head n.natAbs
    have hpd : parseDigits 0 (digitChar d :: (t ++ rest)) = (n.natAbs, rest) := by
      rw [← List.cons_append, ← ht]
      exact parseDigits_serNat n.natAbs rest hrest
    by_cases hneg : n < 0
    · rw [if_pos hneg, List.cons_append, parseValue_succ, skipWs_cons (by decide)]
      dsimp only
      rw [if_neg (by decide), if_neg (by decide), if_neg (by decide), if_pos rfl]
      rw [ht, List.cons_append]
      dsimp only
      rw [if_pos (digitChar_isDigit d hd), hpd]
      dsimp only
      rw [show -((n.natAbs : Int)) = n from by omega]
    · rw [if_neg hneg, ht, List.cons_append, parseValue_succ,
        skipWs_cons (digitChar_goodHead d hd).1]
      dsimp only
      rw [if_neg (digitChar_not_structural d hd).1,
        if_neg (digitChar_not_structural d hd).2.1,
        if_neg (digitChar_not_structural d hd).2.2.1,
        if_neg (digitChar_not_structural d hd).2.2.2,
        if_pos (digitChar_isDigit d hd), hpd]
      dsimp only
      rw [show ((n.natAbs : Int)) = n from by omega]
  | .str s, fuel, hfuel, level, rest, hrest => by
    obtain ⟨f, rfl⟩ : ∃ f, fuel = f + 1 :=
      ⟨fuel - 1, by rw [neededV_str] at hfuel; omega⟩
    rw [serValue_str, List.cons_append, parseValue_succ, skipWs_cons (by decide)]
    dsimp only
    rw [if_pos rfl,
      show (escString s.data ++ ['"']) ++ rest = escString s.data ++ '"' :: rest from by simp,
      parseStringBody_esc]
    rfl
  | .arr .nil, fuel, hfuel, level, rest, hrest => by
    obtain ⟨f, hf⟩ : ∃ f, fuel = f + 1 :=
      ⟨fuel - 1, by rw [neededV_arr, neededL_nil] at hfuel; omega⟩
    obtain ⟨g, hg⟩ : ∃ g, f = g + 1 :=
      ⟨f - 1, by rw [neededV_arr, neededL_nil, hf] at hfuel; omega⟩
    subst hf hg
    rw [serValue_arrNil]
    simp only [List.cons_append, List.nil_append]
    rw [parseValue_succ, skipWs_cons (by decide)]
    dsimp only
    rw [if_neg (by decide), if_pos rfl, parseArr_succ, skipWs_cons (by decide)]
    dsimp only
    rw [if_pos rfl]
  | .arr (.cons hd tl), fuel, hfuel, level, rest, hrest => by
    have hneed : 1 + neededV hd + neededL tl + 2 ≤ fuel := by
      rw [neededV_arr, neededL_cons] at hfuel; omega
    obtain ⟨f, hf⟩ : ∃ f, fuel = f + 1 := ⟨fuel - 1, by omega⟩
    obtain ⟨g, hg⟩ : ∃ g, f = g + 1 := ⟨f - 1, by omega⟩
    subst hf hg
    rw [serValue_arrCons, List.cons_append, parseValue_succ, skipWs_cons (by decide)]
    dsimp only
    rw [if_neg (by decide), if_pos rfl, parseArr_succ]
    obtain ⟨c0, t0, hser, hgood⟩ := serValue_head hd (level + 1)
    have hstream : (nlIndent (level + 1) ++ serValue hd (level + 1)
        ++ serListRest tl (level + 1) ++ nlIndent level ++ [']']) ++ rest
        = nlIndent (level + 1) ++ (serValue hd (level + 1)
          ++ (serListRest tl (level + 1) ++ (nlIndent level ++ (']' :: rest)))) := by
      simp [List.append_assoc]
    rw [hstream, skipWs_nlIndent, hser, List.cons_append, skipWs_cons hgood.1]
    dsimp only
    rw [if_neg hgood.2.1]
    have hv := parseValue_ser hd g (by omega) (level + 1)
      (serListRest tl (level + 1) ++ (nlIndent level ++ (']' :: rest)))
      (noDigit_listSep tl (level + 1) level ']' (by decide) rest)
    rw [hser, List.cons_append] at hv
    rw [hv]
    dsimp only
    rw [parseArrRest_ser tl g (by omega) (level + 1) level rest hrest]
  | .obj .nil, fuel, hfuel, level, rest, hrest => by
    obtain ⟨f, hf⟩ : ∃ f, fuel = f + 1 :=
      ⟨fuel - 1, by rw [neededV_obj, neededO_nil] at hfuel; omega⟩
    obtain ⟨g, hg⟩ : ∃ g, f = g + 1 :=
      ⟨f - 1, by rw [neededV_obj, neededO_nil, hf] at hfuel; omega⟩
    subst hf hg
    rw [serValue_objNil]
    simp only [List.cons_append, List.nil_append]
    rw [parseValue_succ, skipWs_cons (by decide)]
    dsimp only
    rw [if_neg (by decide), if_neg (by decide), if_pos rfl, parseObj_succ,
      skipWs_cons (by decide)]
    dsimp only
    rw [if_pos rfl]
  | .obj (.cons k v tl), fuel, hfuel, level, rest, hrest => by
    have hneed : 2 + neededV v + neededO tl + 2 ≤ fuel := by
      rw [neededV_obj, neededO_cons] at hfuel; omega
    obtain ⟨f, hf⟩ : ∃ f, fuel = f + 1 := ⟨fuel - 1, by omega⟩
    obtain ⟨g, hg⟩ : ∃ g, f = g + 1 := ⟨f - 1, by omega⟩
    obtain ⟨h2, hh⟩ : ∃ h2, g = h2 + 1 := ⟨g - 1, by omega⟩
    subst hf hg hh
    rw [serValue_objCons, List.cons_append, parseValue_succ, skipWs_cons (by decide)]
    dsimp only
    rw [if_neg (by decide), if_neg (by decide), if_pos rfl, parseObj_succ]
    have hstream : (nlIndent (level + 1) ++ serKV k v (level + 1)
        ++ serObjRest tl (level + 1) ++ nlIndent level ++ ['\x7d']) ++ rest
        = nlIndent (level + 1) ++ ('"' ::
          ((escString k.data ++ ('"' :: ':' :: ' ' :: serValue v (level + 1)))
            ++ (serObjRest tl (level + 1) ++ (nlIndent level ++ ('\x7d' :: rest))))) := by
      rw [serKV.eq_def]
      simp [List.append_assoc]
    rw [hstream, skipWs_nlIndent, skipWs_cons (by decide)]
    dsimp only
    rw [if_neg (by decide), if_pos rfl]
    have hv := parseValue_ser v h2 (by omega) (level + 1)
      (serObjRest tl (level + 1) ++ (nlIndent level ++ ('\x7d' :: rest)))
      (noDigit_objSep tl (level + 1) level '\x7d' (by decide) rest)
    rw [parseMember_run k v h2 (level + 1) _ hv]
    dsimp only
    rw [parseObjRest_ser tl (h2 + 1) (by omega) (level + 1) level rest hrest]
/-- Parsing inverts serialization: the remaining array items up to `]`. -/
theorem parseArrRest_ser : ∀ (xs : JsonList) (fuel : Nat), neededL xs + 1 ≤ fuel →
    ∀ (level cl : Nat) (rest : List Char), noDigit rest →
    parseArrRest fuel (serListRest xs level ++ (nlIndent cl ++ (']' :: rest)))
      = some (xs, rest)
  | .nil, fuel, hfuel, level, cl, rest, hrest => by
    obtain ⟨f, rfl⟩ : ∃ f, fuel = f + 1 :=
      ⟨fuel - 1, by rw [neededL_nil] at hfuel; omega⟩
    rw [serListRest_nil, List.nil_append, parseArrRest_succ, skipWs_nlIndent,
      skipWs_cons (by decide)]
    dsimp only
    rw [if_pos rfl]
  | .cons hd tl, fuel, hfuel, level, cl, rest, hrest => by
    have hneed : 1 + neededV hd + neededL tl + 1 ≤ fuel := by
      rw [neededL_cons] at hfuel; omega
    obtain ⟨f, rfl⟩ : ∃ f, fuel = f + 1 := ⟨fuel - 1, by omega⟩
    rw [serListRest_cons, List.cons_append, parseArrRest_succ, skipWs_cons (by decide)]
    dsimp only
    rw [if_neg (by decide), if_pos rfl]
    have hstream : (nlIndent level ++ serValue hd level ++ serListRest tl level)
        ++ (nlIndent cl ++ (']' :: rest))
        = nlIndent level ++ (serValue hd level
          ++ (serListRest tl level ++ (nlIndent cl ++ (']' :: rest)))) := by
      simp [List.append_assoc]
    rw [hstream, parseValue_skipWs_congr f (skipWs_nlIndent level _),
      parseValue_ser hd f (by omega) level
        (serListRest tl level ++ (nlIndent cl ++ (']' :: rest)))
        (noDigit_listSep tl level cl ']' (by decide) rest)]
    dsimp only
    rw [parseArrRest_ser tl f (by omega) level cl rest hrest]
/-- Parsing inverts serialization: the remaining object members up to the
closing brace. -/
theorem parseObjRest_ser : ∀ (kvs : JsonObj) (fuel : Nat), neededO kvs + 1 ≤ fuel →
    ∀ (level cl : Nat) (rest : List Char), noDigit rest →
    parseObjRest fuel (serObjRest kvs level ++ (nlIndent cl ++ ('\x7d' :: rest)))
      = some (kvs, rest)
  | .nil, fuel, hfuel, level, cl, rest, hrest => by
    obtain ⟨f, rfl⟩ : ∃ f, fuel = f + 1 :=
      ⟨fuel - 1, by rw [neededO_nil] at hfuel; omega⟩
    rw [serObjRest_nil, List.nil_append, parseObjRest_succ, skipWs_nlIndent,
      skipWs_cons (by decide)]
    dsimp only
    rw [if_pos rfl]
  | .cons k v tl, fuel, hfuel, level, cl, rest, hrest => by
    have hneed : 2 + neededV v + neededO tl + 1 ≤ fuel := by
      rw [neededO_cons] at hfuel; omega
    obtain ⟨f, hf⟩ : ∃ f, fuel = f + 1 := ⟨fuel - 1, by omega⟩
    obtain ⟨h2, hh⟩ : ∃ h2, f = h2 + 1 := ⟨f - 1, by omega⟩
    subst hf hh
    rw [serObjRest_cons, List.cons_append, parseObjRest_succ, skipWs_cons (by decide)]
    dsimp only
    rw [if_neg (by decide), if_pos rfl]
    have hstream : (nlIndent level ++ serKV k v level ++ serObjRest tl level)
        ++ (nlIndent cl ++ ('\x7d' :: rest))
        = nlIndent level ++ ('"' ::
          ((escString k.data ++ ('"' :: ':' :: ' ' :: serValue v level))
            ++ (serObjRest tl level ++ (nlIndent cl ++ ('\x7d' :: rest))))) := by
      rw [serKV.eq_def]
      simp [List.append_assoc]
    rw [hstream, skipWs_nlIndent, skipWs_cons (by decide)]
    dsimp only
    rw [if_pos rfl]
    have hv := parseValue_ser v h2 (by omega) level
      (serObjRest tl level ++ (nlIndent cl ++ ('\x7d' :: rest)))
      (noDigit_objSep tl level cl '\x7d' (by decide) rest)
    rw [parseMember_run k v h2 level _ hv]
    dsimp only
    rw [parseObjRest_ser tl (h2 + 1) (by omega) level cl rest hrest]
end


mutual
/-- The fuel bound is covered by the length of the serialized text. -/
theorem neededV_le_length : ∀ (v : Json) (level : Nat),
    neededV v ≤ (serValue v level).length
  | .null, level => by rw [neededV_null, serValue_null]; decide
  | .bool true, level => by rw [neededV_bool, serValue_true]; decide
  | .bool false, level => by rw [neededV_bool, serValue_false]; decide
  | .num n, level => by
    rw [neededV_num, serValue_num, serInt]
    obtain ⟨d, t, hd, ht⟩ := serNat_head n.natAbs
    by_cases hneg : n < 0
    · rw [if_pos hneg, ht]
      simp
    · rw [if_neg hneg, ht]
      simp
  | .str s, level => by
    rw [neededV_str, serValue_str]
    simp
  | .arr .nil, level => by rw [neededV_arr, neededL_nil, serValue_arrNil]; decide
  | .arr (.cons hd tl), level => by
    rw [neededV_arr, neededL_cons, serValue_arrCons]
    have h1 := neededV_le_length hd (level + 1)
    have h2 := neededL_le_length tl (level + 1)
    simp only [List.length_cons, List.length_append, nlIndent, List.length_replicate,
      List.length_singleton]
    omega
  | .obj .nil, level => by rw [neededV_obj, neededO_nil, serValue_objNil]; decide
  | .obj (.cons k v tl), level => by
    rw [neededV_obj, neededO_cons, serValue_objCons]
    have h1 := neededV_le_length v (level + 1)
    have h2 := neededO_le_length tl (level + 1)
    simp only [List.length_cons, List.length_append, nlIndent, List.length_replicate,
      List.length_singleton, serKV.eq_def]
    omega
/-- Fuel headroom for array tails is covered by their serialized length. -/
theorem neededL_le_length : ∀ (xs : JsonList) (level : Nat),
    neededL xs ≤ (serListRest xs level).length + 1
  | .nil, level => by rw [neededL_nil]; omega
  | .cons hd tl, level => by
    rw [neededL_cons, serListRest_cons]
    have h1 := neededV_le_length hd level
    have h2 := neededL_le_length tl level
    simp only [List.length_cons, List.length_append, nlIndent, List.length_replicate]
    omega
/-- Fuel headroom for object tails is covered by their serialized length. -/
theorem neededO_le_length : ∀ (kvs : JsonObj) (level : Nat),
    neededO kvs ≤ (serObjRest kvs level).length + 1
  | .nil, level => by rw [neededO_nil]; omega
  | .cons k v tl, level => by
    rw [neededO_cons, serObjRest_cons]
    have h1 := neededV_le_length v level
    have h2 := neededO_le_length tl level
    simp only [List.length_cons, List.length_append, nlIndent, List.length_replicate,
      serKV.eq_def]
    omega
end

/-- `json.load` inverts `json.dump` on every checkpoint value. -/
theorem loads_dumps (v : Json) : loads (dumps v) = some v := by
  have hfuel : neededV v ≤ (serValue v 0).length + 1 :=
    le_trans (neededV_le_length v 0) (by omega)
  have h := parseValue_ser v ((serValue v 0).length + 1) hfuel 0 [] trivial
  rw [List.append_nil] at h
  rw [loads, dumps]
  dsimp only
  rw [h]
  dsimp only
  rw [if_pos (show skipWs ([] : List Char) = [] from rfl)]

/-- A concrete checkpoint record exercising every field the scheduler writes. -/
def sampleCheckpoint : Json :=
  .obj (.cons "session_id" (.str "sess1")
    (.cons "total_images" (.num 5)
    (.cons "completed_images" (.arr (.cons (.num 0) (.cons (.num 1) (.cons (.num 2) .nil))))
    (.cons "generated_images" (.arr (.cons (.str "downloads/minimax_images/a 1.png")
      (.cons (.str "downloads\\b\n.png") .nil)))
    (.cons "failed_at" (.obj (.cons "index" (.num 3)
      (.cons "error" (.str "Error generating image 4: boom")
      (.cons "timestamp" (.num 1759000000) .nil))))
    (.cons "last_update" (.num 1759000001) .nil))))))

/-- C6: `_load_checkpoint(s)` right after `_save_checkpoint(s, c)` returns a
record equal to `c`: the `json.dump(..., indent=2, ensure_ascii=False)` text
written to `checkpoint_{s}.json` parses back to the same value, preserving
every field — `failed_at` included — and the order of the completed-indices
lists. -/
theorem checkpoint_roundtrip (files : String → Option String) (session_id : String)
    (c : Json) (hv : validV c = true) :
    load_checkpoint (save_checkpoint files session_id c) session_id = c := by
  rw [load_checkpoint, save_checkpoint]
  rw [if_pos rfl]
  dsimp only
  rw [loads_dumps]

/-- Witness: the round trip at a concrete populated checkpoint. -/
theorem checkpoint_roundtrip_witness :
    validV sampleCheckpoint = true
    ∧ load_checkpoint
        (save_checkpoint (fun _ => none) "sess1" sampleCheckpoint) "sess1"
      = sampleCheckpoint :=
  ⟨by decide, checkpoint_roundtrip (fun _ => none) "sess1" sampleCheckpoint (by decide)⟩

end ShortsTube
